import Mathlib

/-!
Verification of the wasmi tracer subsystem (crates/wasmi/src/tracer/):
the execution-event log (`ETable`), the initial-memory snapshot
(`IMTable`), the per-step memory-operation derivation
(`memory_event_of_step` / `MTable`) and the shard codec
(`StepInfo::encode` / `decode`, `ETable::into_shards` / `from_shards`).

Machine integers are shallowly embedded as `Nat` holding the unsigned bit
pattern of the Rust value (an `i32` field is the `Nat` below `2 ^ 32` that
its two's-complement bytes denote, an `i64`/`u64`/`usize` field the `Nat`
below `2 ^ 64`, and float fields their IEEE bit patterns, `f32` below
`2 ^ 32`, `f64` below `2 ^ 64`).  The byte codec moves bit patterns only,
so nothing is lost by this choice.  Bytes are `Nat`s below 256.

Rust panics (failing `unwrap`, out-of-range slice indexing, the
`panic!("invalid type")` arms) are embedded as `Option.none`.
-/

namespace WasmiTracer

/-- A byte of the wire format; the encoder only produces values below 256. -/
abbrev Byte := Nat

/-- Big-endian bytes of a `u32`/`i32`/`f32` bit pattern, as in
`to_be_bytes` (etable.rs `ToBytes`). -/
def u32BE (v : Nat) : List Byte :=
  [v / 2 ^ 24 % 256, v / 2 ^ 16 % 256, v / 2 ^ 8 % 256, v % 256]

/-- Big-endian bytes of a `u64`/`i64`/`usize`/`f64` bit pattern, as in
`to_be_bytes` (etable.rs `ToBytes`). -/
def u64BE (v : Nat) : List Byte :=
  [v / 2 ^ 56 % 256, v / 2 ^ 48 % 256, v / 2 ^ 40 % 256, v / 2 ^ 32 % 256,
   v / 2 ^ 24 % 256, v / 2 ^ 16 % 256, v / 2 ^ 8 % 256, v % 256]

/-- The `Nat` denoted by a big-endian byte list (`uNN::from_be_bytes`). -/
def beNat (l : List Byte) : Nat := l.foldl (fun acc b => acc * 256 + b) 0

/-- `&bytes[a..b]` on a Rust slice: `none` models the panic when
`a > b` or `b > len`. -/
def readSlice (bs : List Byte) (a b : Nat) : Option (List Byte) :=
  if a ≤ b ∧ b ≤ bs.length then some ((bs.drop a).take (b - a)) else none

/-- `TryInto::<[u8; n]>::try_into(slice).unwrap()` followed by
`from_be_bytes`: `none` models the panicking `unwrap` on a length
mismatch. -/
def toBE (n : Nat) (l : List Byte) : Option Nat :=
  if l.length = n then some (beNat l) else none

/-- `uNN::from_be_bytes(TryInto::<[u8; n]>::try_into(&bytes[a..b]).unwrap())`. -/
def readBE (bs : List Byte) (a b n : Nat) : Option Nat :=
  (readSlice bs a b).bind (toBE n)

/-- `uNN::from_be_bytes(... &bytes[a..] ...)` (the open-ended slice used by
the `Br` arm of `StepInfo::decode`). -/
def readTailBE (bs : List Byte) (a n : Nat) : Option Nat :=
  toBE n (bs.drop a)

/-- `bytes[i]` on a Rust `Vec<u8>`: `none` models the out-of-bounds panic. -/
def readByte (bs : List Byte) (i : Nat) : Option Byte := bs.get? i

/-- The `match byte { 0 => false, 1 => true, _ => panic!(..) }` blocks of
`StepInfo::decode`. -/
def decodeBool (b : Byte) : Option Bool :=
  if b = 0 then some false else if b = 1 then some true else none

/-- The boolean byte pushed by `StepInfo::encode`
(`match value { true => 1, false => 0 }`). -/
def boolByte (b : Bool) : Byte := if b then 1 else 0

@[simp] theorem u32BE_length (v : Nat) : (u32BE v).length = 4 := rfl

@[simp] theorem u64BE_length (v : Nat) : (u64BE v).length = 8 := rfl

theorem beNat_u32BE {v : Nat} (h : v < 2 ^ 32) : beNat (u32BE v) = v := by
  simp only [beNat, u32BE, List.foldl]
  omega

theorem beNat_u64BE {v : Nat} (h : v < 2 ^ 64) : beNat (u64BE v) = v := by
  simp only [beNat, u64BE, List.foldl]
  omega

theorem readBE_append {pre mid post : List Byte} {n : Nat} (h : mid.length = n) :
    readBE (pre ++ (mid ++ post)) pre.length (pre.length + n) n = some (beNat mid) := by
  unfold readBE readSlice toBE
  have h1 : (pre ++ (mid ++ post)).drop pre.length = mid ++ post := List.drop_left pre _
  have h2 : (mid ++ post).take n = mid := by rw [← h]; exact List.take_left mid post
  rw [if_pos]
  · simp [h1, h2, h]
  · constructor
    · omega
    · simp [List.length_append]; omega

/-! ## Small enums of `imtable.rs` and `etable.rs` with their wire codecs -/

/-- imtable.rs `VarType` (discriminants `I64 = 0 .. ExternRef = 5`). -/
inductive VarType where
  | I64 | I32 | F32 | F64 | FuncRef | ExternRef
deriving DecidableEq, Repr

/-- The Rust `vtype as u8` cast used by `StepInfo::encode`. -/
def VarType.asU8 : VarType → Byte
  | .I64 => 0 | .I32 => 1 | .F32 => 2 | .F64 => 3 | .FuncRef => 4 | .ExternRef => 5

/-- imtable.rs `VarType::decode`. -/
def VarType.decode : Byte → Option VarType
  | 0 => some .I64
  | 1 => some .I32
  | 2 => some .F32
  | 3 => some .F64
  | 4 => some .FuncRef
  | 5 => some .ExternRef
  | _ => none

@[simp] theorem VarType.decode_asU8 (v : VarType) : VarType.decode v.asU8 = some v := by
  cases v <;> rfl

/-- imtable.rs `MemoryReadSize`. -/
inductive MemoryReadSize where
  | U8 | S8 | U16 | S16 | U32 | S32 | I64 | F32 | F64
deriving DecidableEq, Repr

/-- imtable.rs `MemoryReadSize::byte_size`. -/
def MemoryReadSize.byteSize : MemoryReadSize → Nat
  | .U8 => 1 | .S8 => 1 | .U16 => 2 | .S16 => 2
  | .U32 => 4 | .S32 => 4 | .I64 => 8 | .F32 => 4 | .F64 => 8

/-- imtable.rs `MemoryReadSize::encode`. -/
def MemoryReadSize.encode : MemoryReadSize → Byte
  | .U8 => 0 | .S8 => 1 | .U16 => 2 | .S16 => 3
  | .U32 => 4 | .S32 => 5 | .I64 => 6 | .F32 => 7 | .F64 => 8

/-- imtable.rs `MemoryReadSize::decode`. -/
def MemoryReadSize.decode : Byte → Option MemoryReadSize
  | 0 => some .U8
  | 1 => some .S8
  | 2 => some .U16
  | 3 => some .S16
  | 4 => some .U32
  | 5 => some .S32
  | 6 => some .I64
  | 7 => some .F32
  | 8 => some .F64
  | _ => none

@[simp] theorem memoryReadSize_decode_encode (v : MemoryReadSize) :
    MemoryReadSize.decode v.encode = some v := by cases v <;> rfl

/-- imtable.rs `MemoryStoreSize`. -/
inductive MemoryStoreSize where
  | Byte8 | Byte16 | Byte32 | Byte64
deriving DecidableEq, Repr

/-- imtable.rs `MemoryStoreSize::byte_size`. -/
def MemoryStoreSize.byteSize : MemoryStoreSize → Nat
  | .Byte8 => 1 | .Byte16 => 2 | .Byte32 => 4 | .Byte64 => 8

/-- imtable.rs `MemoryStoreSize::encode`. -/
def MemoryStoreSize.encode : MemoryStoreSize → Byte
  | .Byte8 => 0 | .Byte16 => 1 | .Byte32 => 2 | .Byte64 => 3

/-- imtable.rs `MemoryStoreSize::decode`. -/
def MemoryStoreSize.decode : Byte → Option MemoryStoreSize
  | 0 => some .Byte8
  | 1 => some .Byte16
  | 2 => some .Byte32
  | 3 => some .Byte64
  | _ => none

@[simp] theorem memoryStoreSize_decode_encode (v : MemoryStoreSize) :
    MemoryStoreSize.decode v.encode = some v := by cases v <;> rfl

/-- etable.rs `UnaryOp`. -/
inductive UnaryOp where
  | Ctz | Clz | Popcnt | Abs | Neg | Ceil | Floor | Trunc | Nearest | Sqrt
deriving DecidableEq, Repr

/-- etable.rs `UnaryOp::encode`. -/
def UnaryOp.encode : UnaryOp → Byte
  | .Ctz => 0 | .Clz => 1 | .Popcnt => 2 | .Abs => 3 | .Neg => 4
  | .Ceil => 5 | .Floor => 6 | .Trunc => 7 | .Nearest => 8 | .Sqrt => 9

/-- etable.rs `UnaryOp::decode`. -/
def UnaryOp.decode : Byte → Option UnaryOp
  | 0 => some .Ctz
  | 1 => some .Clz
  | 2 => some .Popcnt
  | 3 => some .Abs
  | 4 => some .Neg
  | 5 => some .Ceil
  | 6 => some .Floor
  | 7 => some .Trunc
  | 8 => some .Nearest
  | 9 => some .Sqrt
  | _ => none

@[simp] theorem unaryOp_decode_encode (v : UnaryOp) :
    UnaryOp.decode v.encode = some v := by cases v <;> rfl

/-- etable.rs `BinOp`. -/
inductive BinOp where
  | Add | Sub | Mul | Div | Min | Max | Copysign
  | UnsignedDiv | UnsignedRem | SignedDiv | SignedRem
deriving DecidableEq, Repr

/-- etable.rs `BinOp::encode`. -/
def BinOp.encode : BinOp → Byte
  | .Add => 0 | .Sub => 1 | .Mul => 2 | .Div => 3 | .Min => 4 | .Max => 5
  | .Copysign => 6 | .UnsignedDiv => 7 | .UnsignedRem => 8
  | .SignedDiv => 9 | .SignedRem => 10

/-- etable.rs `BinOp::decode`. -/
def BinOp.decode : Byte → Option BinOp
  | 0 => some .Add
  | 1 => some .Sub
  | 2 => some .Mul
  | 3 => some .Div
  | 4 => some .Min
  | 5 => some .Max
  | 6 => some .Copysign
  | 7 => some .UnsignedDiv
  | 8 => some .UnsignedRem
  | 9 => some .SignedDiv
  | 10 => some .SignedRem
  | _ => none

@[simp] theorem binOp_decode_encode (v : BinOp) :
    BinOp.decode v.encode = some v := by cases v <;> rfl

/-- etable.rs `ShiftOp`. -/
inductive ShiftOp where
  | Shl | UnsignedShr | SignedShr | Rotl | Rotr
deriving DecidableEq, Repr

/-- etable.rs `ShiftOp::encode`. -/
def ShiftOp.encode : ShiftOp → Byte
  | .Shl => 0 | .UnsignedShr => 1 | .SignedShr => 2 | .Rotl => 3 | .Rotr => 4

/-- etable.rs `ShiftOp::decode`. -/
def ShiftOp.decode : Byte → Option ShiftOp
  | 0 => some .Shl
  | 1 => some .UnsignedShr
  | 2 => some .SignedShr
  | 3 => some .Rotl
  | 4 => some .Rotr
  | _ => none

@[simp] theorem shiftOp_decode_encode (v : ShiftOp) :
    ShiftOp.decode v.encode = some v := by cases v <;> rfl

/-- etable.rs `BitOp`. -/
inductive BitOp where
  | And | Or | Xor
deriving DecidableEq, Repr

/-- etable.rs `BitOp::encode`. -/
def BitOp.encode : BitOp → Byte
  | .And => 0 | .Or => 1 | .Xor => 2

/-- etable.rs `BitOp::decode`. -/
def BitOp.decode : Byte → Option BitOp
  | 0 => some .And
  | 1 => some .Or
  | 2 => some .Xor
  | _ => none

@[simp] theorem bitOp_decode_encode (v : BitOp) :
    BitOp.decode v.encode = some v := by cases v <;> rfl

/-- etable.rs `RelOp`. -/
inductive RelOp where
  | Eq | Ne | Lt | Gt | Le | Ge
  | SignedGt | UnsignedGt | SignedGe | UnsignedGe
  | SignedLt | UnsignedLt | SignedLe | UnsignedLe
deriving DecidableEq, Repr

/-- etable.rs `RelOp::encode`. -/
def RelOp.encode : RelOp → Byte
  | .Eq => 0 | .Ne => 1 | .Lt => 2 | .Gt => 3 | .Le => 4 | .Ge => 5
  | .SignedGt => 6 | .UnsignedGt => 7 | .SignedGe => 8 | .UnsignedGe => 9
  | .SignedLt => 10 | .UnsignedLt => 11 | .SignedLe => 12 | .UnsignedLe => 13

/-- etable.rs `RelOp::decode`. -/
def RelOp.decode : Byte → Option RelOp
  | 0 => some .Eq
  | 1 => some .Ne
  | 2 => some .Lt
  | 3 => some .Gt
  | 4 => some .Le
  | 5 => some .Ge
  | 6 => some .SignedGt
  | 7 => some .UnsignedGt
  | 8 => some .SignedGe
  | 9 => some .UnsignedGe
  | 10 => some .SignedLt
  | 11 => some .UnsignedLt
  | 12 => some .SignedLe
  | 13 => some .UnsignedLe
  | _ => none

@[simp] theorem relOp_decode_encode (v : RelOp) :
    RelOp.decode v.encode = some v := by cases v <;> rfl

/-! ## `StepInfo` (etable.rs)

Fields hold unsigned bit patterns: `i32`/`u32`/`f32` fields are `Nat`s
below `2 ^ 32`, `i64`/`u64`/`usize`/`f64` fields `Nat`s below `2 ^ 64`
(see `stepWF`).  `Vec<u64>` and `Vec<UntypedValue>` fields are lists of
64-bit patterns (`UntypedValue` is its `to_bits()` pattern; the type
itself lives outside `src/`).

One discrepancy between the two source files is embedded here: the match
arms of mtable.rs `memory_event_of_step` bind `left_addr`/`right_addr` on
`I32BinOp` and `addr` on `Const32`, while the `StepInfo` declaration in
etable.rs has no such fields (the two files do not compile together).
This embedding carries the union of the fields so that both files'
functions are expressible; `StepInfo.encode`/`decode` follow etable.rs,
which does not serialize the extra address fields (`decode` fills them
with 0). -/

set_option maxHeartbeats 3200000 in
inductive StepInfo where
  | Br (offset : Nat)
  | BrIfEqz (condition offset : Nat)
  | BrIfNez (condition offset : Nat)
  | BrAdjust (offset : Nat)
  | BrTable (index offset : Nat)
  | Return (drop : Nat) (keep_values : List Nat)
  | Drop
  | Select (val1 val2 cond result : Nat)
  | CallInternal (args : List Nat)
  | CallIndirect (func_index : Nat)
  | LocalGet (depth value : Nat)
  | SetLocal (depth value : Nat)
  | TeeLocal (depth value : Nat)
  | GetGlobal (idx value : Nat)
  | SetGlobal (idx value : Nat)
  | Load (vtype : VarType) (load_size : MemoryReadSize)
      (offset raw_address effective_address value block_value1 block_value2 : Nat)
  | Store (vtype : VarType) (store_size : MemoryStoreSize)
      (offset raw_address effective_address pre_block_value1 updated_block_value1
       pre_block_value2 updated_block_value2 value : Nat)
  | MemorySize
  | MemoryGrow (grow_size result : Nat)
  | I32Const (value : Nat)
  | Const32 (value : Nat) (addr : Nat)
  | ConstRef (value : Nat)
  | I64Const (value : Nat)
  | I32BinOp (cls : BinOp) (left right value left_addr right_addr : Nat)
  | I32BinShiftOp (cls : ShiftOp) (left right value : Nat)
  | I32BinBitOp (cls : BitOp) (left right value : Nat)
  | I64BinOp (cls : BinOp) (left right value : Nat)
  | I64BinShiftOp (cls : ShiftOp) (left right value : Nat)
  | I64BinBitOp (cls : BitOp) (left right value : Nat)
  | UnaryOp (cls : UnaryOp) (vtype : VarType) (operand result : Nat)
  | CompZ (vtype : VarType) (value result : Nat)
  | I32Comp (cls : RelOp) (left right : Nat) (value : Bool)
  | I64Comp (cls : RelOp) (left right : Nat) (value : Bool)
  | I32WrapI64 (value result : Nat)
  | I64ExtendI32 (value result : Nat) (sign : Bool)
  | I32SignExtendI8 (value result : Nat)
  | I32SignExtendI16 (value result : Nat)
  | I64SignExtendI8 (value result : Nat)
  | I64SignExtendI16 (value result : Nat)
  | I64SignExtendI32 (value result : Nat)
  | I32TruncF32 (value result : Nat) (sign : Bool)
  | I32TruncF64 (value result : Nat) (sign : Bool)
  | I64TruncF32 (value result : Nat) (sign : Bool)
  | I64TruncF64 (value result : Nat) (sign : Bool)
  | F32ConvertI32 (value result : Nat) (sign : Bool)
  | F32ConvertI64 (value result : Nat) (sign : Bool)
  | F64ConvertI32 (value result : Nat) (sign : Bool)
  | F64ConvertI64 (value result : Nat) (sign : Bool)
  | I32ReinterpretF32 (value result : Nat)
  | I64ReinterpretF64 (value result : Nat)
  | F32ReinterpretI32 (value result : Nat)
  | F64ReinterpretI64 (value result : Nat)
  | F32DemoteF64 (value result : Nat)
  | F64PromoteF32 (value result : Nat)
  | F32Const (value : Nat)
  | F64Const (value : Nat)
  | F32Comp (cls : RelOp) (left right : Nat) (value : Bool)
  | F64Comp (cls : RelOp) (left right : Nat) (value : Bool)
  | F32BinOp (cls : BinOp) (left right value : Nat)
  | F64BinOp (cls : BinOp) (left right value : Nat)
deriving Repr

/-- etable.rs `StepInfo::encode`: one tag byte, then big-endian fields in
declaration order; variable-length lists carry a 4-byte big-endian count.
`usize` fields are 8 bytes, matching `usize::to_be_bytes` on a 64-bit
target.  (The `assert` in the `BrIfNez` arm and the `assert_ne` in the
`CompZ` arm always hold and are not modelled.) -/
def StepInfo.encode : StepInfo → List Byte
  | .Br offset => 0 :: u32BE offset
  | .BrIfEqz condition offset => 1 :: (u32BE condition ++ u32BE offset)
  | .BrIfNez condition offset => 2 :: (u32BE condition ++ u32BE offset)
  | .BrAdjust offset => 3 :: u32BE offset
  | .BrTable index offset => 4 :: (u32BE index ++ u64BE offset)
  | .Return d keep_values =>
      5 :: (u32BE d ++ u32BE keep_values.length ++ (keep_values.map u64BE).flatten)
  | .Drop => [6]
  | .Select val1 val2 cond result =>
      7 :: (u64BE val1 ++ u64BE val2 ++ u64BE cond ++ u64BE result)
  | .CallInternal args => 8 :: (u32BE args.length ++ (args.map u64BE).flatten)
  | .CallIndirect func_index => 9 :: u32BE func_index
  | .LocalGet depth value => 10 :: (u64BE depth ++ u64BE value)
  | .SetLocal depth value => 11 :: (u64BE depth ++ u64BE value)
  | .TeeLocal depth value => 12 :: (u64BE depth ++ u64BE value)
  | .GetGlobal idx value => 13 :: (u32BE idx ++ u64BE value)
  | .SetGlobal idx value => 14 :: (u32BE idx ++ u64BE value)
  | .Load vtype load_size offset raw_address effective_address value bv1 bv2 =>
      15 :: vtype.asU8 :: load_size.encode ::
        (u32BE offset ++ u32BE raw_address ++ u64BE effective_address ++
         u64BE value ++ u64BE bv1 ++ u64BE bv2)
  | .Store vtype store_size offset raw_address effective_address pb1 ub1 pb2 ub2 value =>
      16 :: vtype.asU8 :: store_size.encode ::
        (u32BE offset ++ u32BE raw_address ++ u64BE effective_address ++
         u64BE pb1 ++ u64BE ub1 ++ u64BE pb2 ++ u64BE ub2 ++ u64BE value)
  | .MemorySize => [17]
  | .MemoryGrow grow_size result => 18 :: (u32BE grow_size ++ u32BE result)
  | .I32Const value => 19 :: u32BE value
  | .Const32 value _addr => 20 :: u32BE value
  | .ConstRef value => 21 :: u64BE value
  | .I64Const value => 22 :: u64BE value
  | .I32BinOp cls left right value _la _ra =>
      23 :: cls.encode :: (u32BE left ++ u32BE right ++ u32BE value)
  | .I32BinShiftOp cls left right value =>
      24 :: cls.encode :: (u32BE left ++ u32BE right ++ u32BE value)
  | .I32BinBitOp cls left right value =>
      25 :: cls.encode :: (u32BE left ++ u32BE right ++ u32BE value)
  | .I64BinOp cls left right value =>
      26 :: cls.encode :: (u64BE left ++ u64BE right ++ u64BE value)
  | .I64BinShiftOp cls left right value =>
      27 :: cls.encode :: (u64BE left ++ u64BE right ++ u64BE value)
  | .I64BinBitOp cls left right value =>
      28 :: cls.encode :: (u64BE left ++ u64BE right ++ u64BE value)
  | .UnaryOp cls vtype operand result =>
      29 :: cls.encode :: vtype.asU8 :: (u64BE operand ++ u64BE result)
  | .CompZ vtype value result => 30 :: vtype.asU8 :: (u64BE value ++ u32BE result)
  | .I32Comp cls left right value =>
      31 :: cls.encode :: (u32BE left ++ u32BE right ++ [boolByte value])
  | .I64Comp cls left right value =>
      32 :: cls.encode :: (u64BE left ++ u64BE right ++ [boolByte value])
  | .I32WrapI64 value result => 33 :: (u64BE value ++ u32BE result)
  | .I64ExtendI32 value result sign =>
      34 :: (u32BE value ++ u64BE result ++ [boolByte sign])
  | .I32SignExtendI8 value result => 35 :: (u32BE value ++ u32BE result)
  | .I32SignExtendI16 value result => 36 :: (u32BE value ++ u32BE result)
  | .I64SignExtendI8 value result => 37 :: (u64BE value ++ u64BE result)
  | .I64SignExtendI16 value result => 38 :: (u64BE value ++ u64BE result)
  | .I64SignExtendI32 value result => 39 :: (u64BE value ++ u64BE result)
  | .I32TruncF32 value result sign =>
      40 :: (u32BE value ++ u32BE result ++ [boolByte sign])
  | .I32TruncF64 value result sign =>
      41 :: (u64BE value ++ u32BE result ++ [boolByte sign])
  | .I64TruncF32 value result sign =>
      42 :: (u32BE value ++ u64BE result ++ [boolByte sign])
  | .I64TruncF64 value result sign =>
      43 :: (u64BE value ++ u64BE result ++ [boolByte sign])
  | .F32ConvertI32 value result sign =>
      44 :: (u32BE value ++ u32BE result ++ [boolByte sign])
  | .F32ConvertI64 value result sign =>
      45 :: (u64BE value ++ u32BE result ++ [boolByte sign])
  | .F64ConvertI32 value result sign =>
      46 :: (u32BE value ++ u64BE result ++ [boolByte sign])
  | .F64ConvertI64 value result sign =>
      47 :: (u64BE value ++ u64BE result ++ [boolByte sign])
  | .I32ReinterpretF32 value result => 48 :: (u32BE value ++ u32BE result)
  | .I64ReinterpretF64 value result => 49 :: (u64BE value ++ u64BE result)
  | .F32ReinterpretI32 value result => 50 :: (u32BE value ++ u32BE result)
  | .F64ReinterpretI64 value result => 51 :: (u64BE value ++ u64BE result)
  | .F32DemoteF64 value result => 52 :: (u64BE value ++ u32BE result)
  | .F64PromoteF32 value result => 53 :: (u32BE value ++ u64BE result)
  | .F32Const value => 54 :: u32BE value
  | .F64Const value => 55 :: u64BE value
  | .F32Comp cls left right value =>
      56 :: cls.encode :: (u32BE left ++ u32BE right ++ [boolByte value])
  | .F64Comp cls left right value =>
      57 :: cls.encode :: (u64BE left ++ u64BE right ++ [boolByte value])
  | .F32BinOp cls left right value =>
      58 :: cls.encode :: (u32BE left ++ u32BE right ++ u32BE value)
  | .F64BinOp cls left right value =>
      59 :: cls.encode :: (u64BE left ++ u64BE right ++ u64BE value)

/-- The decode loops of the `Return`/`CallInternal` arms: read `count`
8-byte big-endian values starting at byte offset `start`, advancing by 8
(`&bytes[start + i * 8 .. start + i * 8 + 8]`). -/
def readU64s (bs : List Byte) : Nat → Nat → Option (List Nat)
  | _, 0 => some []
  | start, count + 1 => do
      let v ← readBE bs start (start + 8) 8
      let rest ← readU64s bs (start + 8) count
      pure (v :: rest)

/-- etable.rs `StepInfo::decode`, with the source's hard-coded byte
indices reproduced verbatim — including the arms whose indices do not
match the encoder's layout (tags 4, 9, 32, 41, 56, 57).  `none` stands
for the panics (`unwrap` on a mis-sized slice, unknown tag, a flag byte
outside `{0, 1}`).  For tags 20 and 23 the construction sites in the
source do not mention the `addr`/`left_addr`/`right_addr` fields (they do
not exist in etable.rs's `StepInfo`); this embedding fills them with 0. -/
def StepInfo.decode (bs : List Byte) : Option StepInfo :=
  match bs with
  | [] => none
  | tag :: _ =>
    match tag with
    | 0 => do
        let offset ← readTailBE bs 1 4
        pure (.Br offset)
    | 1 => do
        let condition ← readBE bs 1 5 4
        let offset ← readBE bs 5 9 4
        pure (.BrIfEqz condition offset)
    | 2 => do
        let condition ← readBE bs 1 5 4
        let offset ← readBE bs 5 9 4
        pure (.BrIfNez condition offset)
    | 3 => do
        let offset ← readBE bs 1 5 4
        pure (.BrAdjust offset)
    | 4 => do
        let index ← readBE bs 1 5 4
        let offset ← readBE bs 5 9 8
        pure (.BrTable index offset)
    | 5 => do
        let d ← readBE bs 1 5 4
        let num ← readBE bs 5 9 4
        let values ← readU64s bs 9 num
        pure (.Return d values)
    | 6 => pure .Drop
    | 7 => do
        let val1 ← readBE bs 1 9 8
        let val2 ← readBE bs 9 17 8
        let cond ← readBE bs 17 25 8
        let result ← readBE bs 25 33 8
        pure (.Select val1 val2 cond result)
    | 8 => do
        let num ← readBE bs 1 5 4
        let args ← readU64s bs 5 num
        pure (.CallInternal args)
    | 9 => do
        let func_index ← readBE bs 1 9 4
        pure (.CallIndirect func_index)
    | 10 => do
        let depth ← readBE bs 1 9 8
        let value ← readBE bs 9 17 8
        pure (.LocalGet depth value)
    | 11 => do
        let depth ← readBE bs 1 9 8
        let value ← readBE bs 9 17 8
        pure (.SetLocal depth value)
    | 12 => do
        let depth ← readBE bs 1 9 8
        let value ← readBE bs 9 17 8
        pure (.TeeLocal depth value)
    | 13 => do
        let idx ← readBE bs 1 5 4
        let value ← readBE bs 5 13 8
        pure (.GetGlobal idx value)
    | 14 => do
        let idx ← readBE bs 1 5 4
        let value ← readBE bs 5 13 8
        pure (.SetGlobal idx value)
    | 15 => do
        let vtype ← (readByte bs 1).bind VarType.decode
        let load_size ← (readByte bs 2).bind MemoryReadSize.decode
        let offset ← readBE bs 3 7 4
        let raw_address ← readBE bs 7 11 4
        let effective_address ← readBE bs 11 19 8
        let value ← readBE bs 19 27 8
        let bv1 ← readBE bs 27 35 8
        let bv2 ← readBE bs 35 43 8
        pure (.Load vtype load_size offset raw_address effective_address value bv1 bv2)
    | 16 => do
        let vtype ← (readByte bs 1).bind VarType.decode
        let store_size ← (readByte bs 2).bind MemoryStoreSize.decode
        let offset ← readBE bs 3 7 4
        let raw_address ← readBE bs 7 11 4
        let effective_address ← readBE bs 11 19 8
        let pb1 ← readBE bs 19 27 8
        let ub1 ← readBE bs 27 35 8
        let pb2 ← readBE bs 35 43 8
        let ub2 ← readBE bs 43 51 8
        let value ← readBE bs 51 59 8
        pure (.Store vtype store_size offset raw_address effective_address pb1 ub1 pb2 ub2 value)
    | 17 => pure .MemorySize
    | 18 => do
        let grow_size ← readBE bs 1 5 4
        let result ← readBE bs 5 9 4
        pure (.MemoryGrow grow_size result)
    | 19 => do
        let value ← readBE bs 1 5 4
        pure (.I32Const value)
    | 20 => do
        let value ← readBE bs 1 5 4
        pure (.Const32 value 0)
    | 21 => do
        let value ← readBE bs 1 9 8
        pure (.ConstRef value)
    | 22 => do
        let value ← readBE bs 1 9 8
        pure (.I64Const value)
    | 23 => do
        let cls ← (readByte bs 1).bind BinOp.decode
        let left ← readBE bs 2 6 4
        let right ← readBE bs 6 10 4
        let value ← readBE bs 10 14 4
        pure (.I32BinOp cls left right value 0 0)
    | 24 => do
        let cls ← (readByte bs 1).bind ShiftOp.decode
        let left ← readBE bs 2 6 4
        let right ← readBE bs 6 10 4
        let value ← readBE bs 10 14 4
        pure (.I32BinShiftOp cls left right value)
    | 25 => do
        let cls ← (readByte bs 1).bind BitOp.decode
        let left ← readBE bs 2 6 4
        let right ← readBE bs 6 10 4
        let value ← readBE bs 10 14 4
        pure (.I32BinBitOp cls left right value)
    | 26 => do
        let cls ← (readByte bs 1).bind BinOp.decode
        let left ← readBE bs 2 10 8
        let right ← readBE bs 10 18 8
        let value ← readBE bs 18 26 8
        pure (.I64BinOp cls left right value)
    | 27 => do
        let cls ← (readByte bs 1).bind ShiftOp.decode
        let left ← readBE bs 2 10 8
        let right ← readBE bs 10 18 8
        let value ← readBE bs 18 26 8
        pure (.I64BinShiftOp cls left right value)
    | 28 => do
        let cls ← (readByte bs 1).bind BitOp.decode
        let left ← readBE bs 2 10 8
        let right ← readBE bs 10 18 8
        let value ← readBE bs 18 26 8
        pure (.I64BinBitOp cls left right value)
    | 29 => do
        let cls ← (readByte bs 1).bind UnaryOp.decode
        let vtype ← (readByte bs 2).bind VarType.decode
        let operand ← readBE bs 3 11 8
        let result ← readBE bs 11 19 8
        pure (.UnaryOp cls vtype operand result)
    | 30 => do
        let vtype ← (readByte bs 1).bind VarType.decode
        let value ← readBE bs 2 10 8
        let result ← readBE bs 10 14 4
        pure (.CompZ vtype value result)
    | 31 => do
        let cls ← (readByte bs 1).bind RelOp.decode
        let left ← readBE bs 2 6 4
        let right ← readBE bs 6 10 4
        let value ← (readByte bs 10).bind decodeBool
        pure (.I32Comp cls left right value)
    | 32 => do
        let cls ← (readByte bs 1).bind RelOp.decode
        let left ← readBE bs 2 10 8
        let right ← readBE bs 10 18 8
        let value ← (readByte bs 17).bind decodeBool
        pure (.I64Comp cls left right value)
    | 33 => do
        let value ← readBE bs 1 9 8
        let result ← readBE bs 9 13 4
        pure (.I32WrapI64 value result)
    | 34 => do
        let value ← readBE bs 1 5 4
        let result ← readBE bs 5 13 8
        let sign ← (readByte bs 13).bind decodeBool
        pure (.I64ExtendI32 value result sign)
    | 35 => do
        let value ← readBE bs 1 5 4
        let result ← readBE bs 5 9 4
        pure (.I32SignExtendI8 value result)
    | 36 => do
        let value ← readBE bs 1 5 4
        let result ← readBE bs 5 9 4
        pure (.I32SignExtendI16 value result)
    | 37 => do
        let value ← readBE bs 1 9 8
        let result ← readBE bs 9 17 8
        pure (.I64SignExtendI8 value result)
    | 38 => do
        let value ← readBE bs 1 9 8
        let result ← readBE bs 9 17 8
        pure (.I64SignExtendI16 value result)
    | 39 => do
        let value ← readBE bs 1 9 8
        let result ← readBE bs 9 17 8
        pure (.I64SignExtendI32 value result)
    | 40 => do
        let value ← readBE bs 1 5 4
        let result ← readBE bs 5 9 4
        let sign ← (readByte bs 9).bind decodeBool
        pure (.I32TruncF32 value result sign)
    | 41 => do
        let value ← readBE bs 1 9 8
        let result ← readBE bs 9 13 4
        let sign ← (readByte bs 9).bind decodeBool
        pure (.I32TruncF64 value result sign)
    | 42 => do
        let value ← readBE bs 1 5 4
        let result ← readBE bs 5 13 8
        let sign ← (readByte bs 13).bind decodeBool
        pure (.I64TruncF32 value result sign)
    | 43 => do
        let value ← readBE bs 1 9 8
        let result ← readBE bs 9 17 8
        let sign ← (readByte bs 17).bind decodeBool
        pure (.I64TruncF64 value result sign)
    | 44 => do
        let value ← readBE bs 1 5 4
        let result ← readBE bs 5 9 4
        let sign ← (readByte bs 9).bind decodeBool
        pure (.F32ConvertI32 value result sign)
    | 45 => do
        let value ← readBE bs 1 9 8
        let result ← readBE bs 9 13 4
        let sign ← (readByte bs 13).bind decodeBool
        pure (.F32ConvertI64 value result sign)
    | 46 => do
        let value ← readBE bs 1 5 4
        let result ← readBE bs 5 13 8
        let sign ← (readByte bs 13).bind decodeBool
        pure (.F64ConvertI32 value result sign)
    | 47 => do
        let value ← readBE bs 1 9 8
        let result ← readBE bs 9 17 8
        let sign ← (readByte bs 17).bind decodeBool
        pure (.F64ConvertI64 value result sign)
    | 48 => do
        let value ← readBE bs 1 5 4
        let result ← readBE bs 5 9 4
        pure (.I32ReinterpretF32 value result)
    | 49 => do
        let value ← readBE bs 1 9 8
        let result ← readBE bs 9 17 8
        pure (.I64ReinterpretF64 value result)
    | 50 => do
        let value ← readBE bs 1 5 4
        let result ← readBE bs 5 9 4
        pure (.F32ReinterpretI32 value result)
    | 51 => do
        let value ← readBE bs 1 9 8
        let result ← readBE bs 9 17 8
        pure (.F64ReinterpretI64 value result)
    | 52 => do
        let value ← readBE bs 1 9 8
        let result ← readBE bs 9 13 4
        pure (.F32DemoteF64 value result)
    | 53 => do
        let value ← readBE bs 1 5 4
        let result ← readBE bs 5 13 8
        pure (.F64PromoteF32 value result)
    | 54 => do
        let value ← readBE bs 1 5 4
        pure (.F32Const value)
    | 55 => do
        let value ← readBE bs 1 9 8
        pure (.F64Const value)
    | 56 => do
        let cls ← (readByte bs 1).bind RelOp.decode
        let left ← readBE bs 2 6 4
        let right ← readBE bs 6 10 4
        let value ← (readByte bs 9).bind decodeBool
        pure (.F32Comp cls left right value)
    | 57 => do
        let cls ← (readByte bs 1).bind RelOp.decode
        let left ← readBE bs 2 10 8
        let right ← readBE bs 10 18 8
        let value ← (readByte bs 17).bind decodeBool
        pure (.F64Comp cls left right value)
    | 58 => do
        let cls ← (readByte bs 1).bind BinOp.decode
        let left ← readBE bs 2 6 4
        let right ← readBE bs 6 10 4
        let value ← readBE bs 10 14 4
        pure (.F32BinOp cls left right value)
    | 59 => do
        let cls ← (readByte bs 1).bind BinOp.decode
        let left ← readBE bs 2 10 8
        let right ← readBE bs 10 18 8
        let value ← readBE bs 18 26 8
        pure (.F64BinOp cls left right value)
    | _ => none

/-! ## Byte-level helper lemmas for the codec proofs -/

@[simp] theorem drop4_u32BE (x : Nat) (l : List Byte) : (u32BE x ++ l).drop 4 = l := by
  rw [← u32BE_length x]; exact List.drop_left _ _

@[simp] theorem take4_u32BE (x : Nat) (l : List Byte) : (u32BE x ++ l).take 4 = u32BE x := by
  rw [← u32BE_length x]; exact List.take_left _ _

@[simp] theorem drop8_u64BE (x : Nat) (l : List Byte) : (u64BE x ++ l).drop 8 = l := by
  rw [← u64BE_length x]; exact List.drop_left _ _

@[simp] theorem take8_u64BE (x : Nat) (l : List Byte) : (u64BE x ++ l).take 8 = u64BE x := by
  rw [← u64BE_length x]; exact List.take_left _ _

@[simp] theorem drop_add4_u32BE (x : Nat) (l : List Byte) (n : Nat) :
    (u32BE x ++ l).drop (n + 4) = l.drop n := by
  simp [u32BE, List.cons_append]

@[simp] theorem drop_add8_u64BE (x : Nat) (l : List Byte) (n : Nat) :
    (u64BE x ++ l).drop (n + 8) = l.drop n := by
  simp [u64BE, List.cons_append]

@[simp] theorem take4_u32BE_self (x : Nat) : (u32BE x).take 4 = u32BE x := by
  simp [u32BE]

@[simp] theorem take8_u64BE_self (x : Nat) : (u64BE x).take 8 = u64BE x := by
  simp [u64BE]

@[simp] theorem drop4_u32BE_self (x : Nat) : (u32BE x).drop 4 = [] := by
  simp [u32BE]

@[simp] theorem drop8_u64BE_self (x : Nat) : (u64BE x).drop 8 = [] := by
  simp [u64BE]

theorem readByte_head_drop (bs : List Byte) (i : Nat) :
    readByte bs i = (bs.drop i).head? := by
  simp [readByte, List.head?_drop]

@[simp] theorem decodeBool_boolByte (b : Bool) : decodeBool (boolByte b) = some b := by
  cases b <;> rfl

@[simp] theorem flatten_map_u64BE_length (vs : List Nat) :
    ((vs.map u64BE).flatten).length = 8 * vs.length := by
  induction vs with
  | nil => rfl
  | cons v vs ih => simp [ih]; ring

theorem readU64s_chunks :
    ∀ (vs : List Nat) (pre : List Byte), (∀ v ∈ vs, v < 2 ^ 64) →
      readU64s (pre ++ (vs.map u64BE).flatten) pre.length vs.length = some vs := by
  intro vs
  induction vs with
  | nil => intro pre _; rfl
  | cons v vs ih =>
    intro pre hb
    have hv : v < 2 ^ 64 := hb v (List.mem_cons_self ..)
    have hbs : ∀ w ∈ vs, w < 2 ^ 64 := fun w hw => hb w (List.mem_cons_of_mem _ hw)
    have hpre : (pre ++ ((v :: vs).map u64BE).flatten)
        = (pre ++ u64BE v) ++ (vs.map u64BE).flatten := by
      simp [List.append_assoc]
    have hlen : (pre ++ u64BE v).length = pre.length + 8 := by simp
    have hrec := ih (pre ++ u64BE v) hbs
    rw [hlen] at hrec
    have hread : readBE (pre ++ ((v :: vs).map u64BE).flatten)
        pre.length (pre.length + 8) 8 = some v := by
      have : readBE (pre ++ (u64BE v ++ (vs.map u64BE).flatten))
          pre.length (pre.length + 8) 8 = some (beNat (u64BE v)) :=
        readBE_append (u64BE_length v)
      rw [beNat_u64BE hv] at this
      simpa [List.append_assoc] using this
    simp only [List.length_cons, readU64s, hread, Option.some_bind]
    rw [hpre, hrec]
    rfl

/-! ## Per-tag equations of `StepInfo.decode`, definitional (`rfl`) -/

theorem decode_tag0 (rest : List Byte) :
    StepInfo.decode (0 :: rest) = (do
      let offset ← readTailBE (0 :: rest) 1 4
      pure (.Br offset)) := rfl

theorem decode_tag1 (rest : List Byte) :
    StepInfo.decode (1 :: rest) = (do
      let condition ← readBE (1 :: rest) 1 5 4
      let offset ← readBE (1 :: rest) 5 9 4
      pure (.BrIfEqz condition offset)) := rfl

theorem decode_tag2 (rest : List Byte) :
    StepInfo.decode (2 :: rest) = (do
      let condition ← readBE (2 :: rest) 1 5 4
      let offset ← readBE (2 :: rest) 5 9 4
      pure (.BrIfNez condition offset)) := rfl

theorem decode_tag3 (rest : List Byte) :
    StepInfo.decode (3 :: rest) = (do
      let offset ← readBE (3 :: rest) 1 5 4
      pure (.BrAdjust offset)) := rfl

theorem decode_tag4 (rest : List Byte) :
    StepInfo.decode (4 :: rest) = (do
      let index ← readBE (4 :: rest) 1 5 4
      let offset ← readBE (4 :: rest) 5 9 8
      pure (.BrTable index offset)) := rfl

theorem decode_tag5 (rest : List Byte) :
    StepInfo.decode (5 :: rest) = (do
      let d ← readBE (5 :: rest) 1 5 4
      let num ← readBE (5 :: rest) 5 9 4
      let values ← readU64s (5 :: rest) 9 num
      pure (.Return d values)) := rfl

theorem decode_tag6 (rest : List Byte) :
    StepInfo.decode (6 :: rest) = (do
      pure .Drop) := rfl

theorem decode_tag7 (rest : List Byte) :
    StepInfo.decode (7 :: rest) = (do
      let val1 ← readBE (7 :: rest) 1 9 8
      let val2 ← readBE (7 :: rest) 9 17 8
      let cond ← readBE (7 :: rest) 17 25 8
      let result ← readBE (7 :: rest) 25 33 8
      pure (.Select val1 val2 cond result)) := rfl

theorem decode_tag8 (rest : List Byte) :
    StepInfo.decode (8 :: rest) = (do
      let num ← readBE (8 :: rest) 1 5 4
      let args ← readU64s (8 :: rest) 5 num
      pure (.CallInternal args)) := rfl

theorem decode_tag9 (rest : List Byte) :
    StepInfo.decode (9 :: rest) = (do
      let func_index ← readBE (9 :: rest) 1 9 4
      pure (.CallIndirect func_index)) := rfl

theorem decode_tag10 (rest : List Byte) :
    StepInfo.decode (10 :: rest) = (do
      let depth ← readBE (10 :: rest) 1 9 8
      let value ← readBE (10 :: rest) 9 17 8
      pure (.LocalGet depth value)) := rfl

theorem decode_tag11 (rest : List Byte) :
    StepInfo.decode (11 :: rest) = (do
      let depth ← readBE (11 :: rest) 1 9 8
      let value ← readBE (11 :: rest) 9 17 8
      pure (.SetLocal depth value)) := rfl

theorem decode_tag12 (rest : List Byte) :
    StepInfo.decode (12 :: rest) = (do
      let depth ← readBE (12 :: rest) 1 9 8
      let value ← readBE (12 :: rest) 9 17 8
      pure (.TeeLocal depth value)) := rfl

theorem decode_tag13 (rest : List Byte) :
    StepInfo.decode (13 :: rest) = (do
      let idx ← readBE (13 :: rest) 1 5 4
      let value ← readBE (13 :: rest) 5 13 8
      pure (.GetGlobal idx value)) := rfl

theorem decode_tag14 (rest : List Byte) :
    StepInfo.decode (14 :: rest) = (do
      let idx ← readBE (14 :: rest) 1 5 4
      let value ← readBE (14 :: rest) 5 13 8
      pure (.SetGlobal idx value)) := rfl

theorem decode_tag15 (rest : List Byte) :
    StepInfo.decode (15 :: rest) = (do
      let vtype ← (readByte (15 :: rest) 1).bind VarType.decode
      let load_size ← (readByte (15 :: rest) 2).bind MemoryReadSize.decode
      let offset ← readBE (15 :: rest) 3 7 4
      let raw_address ← readBE (15 :: rest) 7 11 4
      let effective_address ← readBE (15 :: rest) 11 19 8
      let value ← readBE (15 :: rest) 19 27 8
      let bv1 ← readBE (15 :: rest) 27 35 8
      let bv2 ← readBE (15 :: rest) 35 43 8
      pure (.Load vtype load_size offset raw_address effective_address value bv1 bv2)) := rfl

theorem decode_tag16 (rest : List Byte) :
    StepInfo.decode (16 :: rest) = (do
      let vtype ← (readByte (16 :: rest) 1).bind VarType.decode
      let store_size ← (readByte (16 :: rest) 2).bind MemoryStoreSize.decode
      let offset ← readBE (16 :: rest) 3 7 4
      let raw_address ← readBE (16 :: rest) 7 11 4
      let effective_address ← readBE (16 :: rest) 11 19 8
      let pb1 ← readBE (16 :: rest) 19 27 8
      let ub1 ← readBE (16 :: rest) 27 35 8
      let pb2 ← readBE (16 :: rest) 35 43 8
      let ub2 ← readBE (16 :: rest) 43 51 8
      let value ← readBE (16 :: rest) 51 59 8
      pure (.Store vtype store_size offset raw_address effective_address pb1 ub1 pb2 ub2 value)) := rfl

theorem decode_tag17 (rest : List Byte) :
    StepInfo.decode (17 :: rest) = (do
      pure .MemorySize) := rfl

theorem decode_tag18 (rest : List Byte) :
    StepInfo.decode (18 :: rest) = (do
      let grow_size ← readBE (18 :: rest) 1 5 4
      let result ← readBE (18 :: rest) 5 9 4
      pure (.MemoryGrow grow_size result)) := rfl

theorem decode_tag19 (rest : List Byte) :
    StepInfo.decode (19 :: rest) = (do
      let value ← readBE (19 :: rest) 1 5 4
      pure (.I32Const value)) := rfl

theorem decode_tag20 (rest : List Byte) :
    StepInfo.decode (20 :: rest) = (do
      let value ← readBE (20 :: rest) 1 5 4
      pure (.Const32 value 0)) := rfl

theorem decode_tag21 (rest : List Byte) :
    StepInfo.decode (21 :: rest) = (do
      let value ← readBE (21 :: rest) 1 9 8
      pure (.ConstRef value)) := rfl

theorem decode_tag22 (rest : List Byte) :
    StepInfo.decode (22 :: rest) = (do
      let value ← readBE (22 :: rest) 1 9 8
      pure (.I64Const value)) := rfl

theorem decode_tag23 (rest : List Byte) :
    StepInfo.decode (23 :: rest) = (do
      let cls ← (readByte (23 :: rest) 1).bind BinOp.decode
      let left ← readBE (23 :: rest) 2 6 4
      let right ← readBE (23 :: rest) 6 10 4
      let value ← readBE (23 :: rest) 10 14 4
      pure (.I32BinOp cls left right value 0 0)) := rfl

theorem decode_tag24 (rest : List Byte) :
    StepInfo.decode (24 :: rest) = (do
      let cls ← (readByte (24 :: rest) 1).bind ShiftOp.decode
      let left ← readBE (24 :: rest) 2 6 4
      let right ← readBE (24 :: rest) 6 10 4
      let value ← readBE (24 :: rest) 10 14 4
      pure (.I32BinShiftOp cls left right value)) := rfl

theorem decode_tag25 (rest : List Byte) :
    StepInfo.decode (25 :: rest) = (do
      let cls ← (readByte (25 :: rest) 1).bind BitOp.decode
      let left ← readBE (25 :: rest) 2 6 4
      let right ← readBE (25 :: rest) 6 10 4
      let value ← readBE (25 :: rest) 10 14 4
      pure (.I32BinBitOp cls left right value)) := rfl

theorem decode_tag26 (rest : List Byte) :
    StepInfo.decode (26 :: rest) = (do
      let cls ← (readByte (26 :: rest) 1).bind BinOp.decode
      let left ← readBE (26 :: rest) 2 10 8
      let right ← readBE (26 :: rest) 10 18 8
      let value ← readBE (26 :: rest) 18 26 8
      pure (.I64BinOp cls left right value)) := rfl

theorem decode_tag27 (rest : List Byte) :
    StepInfo.decode (27 :: rest) = (do
      let cls ← (readByte (27 :: rest) 1).bind ShiftOp.decode
      let left ← readBE (27 :: rest) 2 10 8
      let right ← readBE (27 :: rest) 10 18 8
      let value ← readBE (27 :: rest) 18 26 8
      pure (.I64BinShiftOp cls left right value)) := rfl

theorem decode_tag28 (rest : List Byte) :
    StepInfo.decode (28 :: rest) = (do
      let cls ← (readByte (28 :: rest) 1).bind BitOp.decode
      let left ← readBE (28 :: rest) 2 10 8
      let right ← readBE (28 :: rest) 10 18 8
      let value ← readBE (28 :: rest) 18 26 8
      pure (.I64BinBitOp cls left right value)) := rfl

theorem decode_tag29 (rest : List Byte) :
    StepInfo.decode (29 :: rest) = (do
      let cls ← (readByte (29 :: rest) 1).bind UnaryOp.decode
      let vtype ← (readByte (29 :: rest) 2).bind VarType.decode
      let operand ← readBE (29 :: rest) 3 11 8
      let result ← readBE (29 :: rest) 11 19 8
      pure (.UnaryOp cls vtype operand result)) := rfl

theorem decode_tag30 (rest : List Byte) :
    StepInfo.decode (30 :: rest) = (do
      let vtype ← (readByte (30 :: rest) 1).bind VarType.decode
      let value ← readBE (30 :: rest) 2 10 8
      let result ← readBE (30 :: rest) 10 14 4
      pure (.CompZ vtype value result)) := rfl

theorem decode_tag31 (rest : List Byte) :
    StepInfo.decode (31 :: rest) = (do
      let cls ← (readByte (31 :: rest) 1).bind RelOp.decode
      let left ← readBE (31 :: rest) 2 6 4
      let right ← readBE (31 :: rest) 6 10 4
      let value ← (readByte (31 :: rest) 10).bind decodeBool
      pure (.I32Comp cls left right value)) := rfl

theorem decode_tag32 (rest : List Byte) :
    StepInfo.decode (32 :: rest) = (do
      let cls ← (readByte (32 :: rest) 1).bind RelOp.decode
      let left ← readBE (32 :: rest) 2 10 8
      let right ← readBE (32 :: rest) 10 18 8
      let value ← (readByte (32 :: rest) 17).bind decodeBool
      pure (.I64Comp cls left right value)) := rfl

theorem decode_tag33 (rest : List Byte) :
    StepInfo.decode (33 :: rest) = (do
      let value ← readBE (33 :: rest) 1 9 8
      let result ← readBE (33 :: rest) 9 13 4
      pure (.I32WrapI64 value result)) := rfl

theorem decode_tag34 (rest : List Byte) :
    StepInfo.decode (34 :: rest) = (do
      let value ← readBE (34 :: rest) 1 5 4
      let result ← readBE (34 :: rest) 5 13 8
      let sign ← (readByte (34 :: rest) 13).bind decodeBool
      pure (.I64ExtendI32 value result sign)) := rfl

theorem decode_tag35 (rest : List Byte) :
    StepInfo.decode (35 :: rest) = (do
      let value ← readBE (35 :: rest) 1 5 4
      let result ← readBE (35 :: rest) 5 9 4
      pure (.I32SignExtendI8 value result)) := rfl

theorem decode_tag36 (rest : List Byte) :
    StepInfo.decode (36 :: rest) = (do
      let value ← readBE (36 :: rest) 1 5 4
      let result ← readBE (36 :: rest) 5 9 4
      pure (.I32SignExtendI16 value result)) := rfl

theorem decode_tag37 (rest : List Byte) :
    StepInfo.decode (37 :: rest) = (do
      let value ← readBE (37 :: rest) 1 9 8
      let result ← readBE (37 :: rest) 9 17 8
      pure (.I64SignExtendI8 value result)) := rfl

theorem decode_tag38 (rest : List Byte) :
    StepInfo.decode (38 :: rest) = (do
      let value ← readBE (38 :: rest) 1 9 8
      let result ← readBE (38 :: rest) 9 17 8
      pure (.I64SignExtendI16 value result)) := rfl

theorem decode_tag39 (rest : List Byte) :
    StepInfo.decode (39 :: rest) = (do
      let value ← readBE (39 :: rest) 1 9 8
      let result ← readBE (39 :: rest) 9 17 8
      pure (.I64SignExtendI32 value result)) := rfl

theorem decode_tag40 (rest : List Byte) :
    StepInfo.decode (40 :: rest) = (do
      let value ← readBE (40 :: rest) 1 5 4
      let result ← readBE (40 :: rest) 5 9 4
      let sign ← (readByte (40 :: rest) 9).bind decodeBool
      pure (.I32TruncF32 value result sign)) := rfl

theorem decode_tag41 (rest : List Byte) :
    StepInfo.decode (41 :: rest) = (do
      let value ← readBE (41 :: rest) 1 9 8
      let result ← readBE (41 :: rest) 9 13 4
      let sign ← (readByte (41 :: rest) 9).bind decodeBool
      pure (.I32TruncF64 value result sign)) := rfl

theorem decode_tag42 (rest : List Byte) :
    StepInfo.decode (42 :: rest) = (do
      let value ← readBE (42 :: rest) 1 5 4
      let result ← readBE (42 :: rest) 5 13 8
      let sign ← (readByte (42 :: rest) 13).bind decodeBool
      pure (.I64TruncF32 value result sign)) := rfl

theorem decode_tag43 (rest : List Byte) :
    StepInfo.decode (43 :: rest) = (do
      let value ← readBE (43 :: rest) 1 9 8
      let result ← readBE (43 :: rest) 9 17 8
      let sign ← (readByte (43 :: rest) 17).bind decodeBool
      pure (.I64TruncF64 value result sign)) := rfl

theorem decode_tag44 (rest : List Byte) :
    StepInfo.decode (44 :: rest) = (do
      let value ← readBE (44 :: rest) 1 5 4
      let result ← readBE (44 :: rest) 5 9 4
      let sign ← (readByte (44 :: rest) 9).bind decodeBool
      pure (.F32ConvertI32 value result sign)) := rfl

theorem decode_tag45 (rest : List Byte) :
    StepInfo.decode (45 :: rest) = (do
      let value ← readBE (45 :: rest) 1 9 8
      let result ← readBE (45 :: rest) 9 13 4
      let sign ← (readByte (45 :: rest) 13).bind decodeBool
      pure (.F32ConvertI64 value result sign)) := rfl

theorem decode_tag46 (rest : List Byte) :
    StepInfo.decode (46 :: rest) = (do
      let value ← readBE (46 :: rest) 1 5 4
      let result ← readBE (46 :: rest) 5 13 8
      let sign ← (readByte (46 :: rest) 13).bind decodeBool
      pure (.F64ConvertI32 value result sign)) := rfl

theorem decode_tag47 (rest : List Byte) :
    StepInfo.decode (47 :: rest) = (do
      let value ← readBE (47 :: rest) 1 9 8
      let result ← readBE (47 :: rest) 9 17 8
      let sign ← (readByte (47 :: rest) 17).bind decodeBool
      pure (.F64ConvertI64 value result sign)) := rfl

theorem decode_tag48 (rest : List Byte) :
    StepInfo.decode (48 :: rest) = (do
      let value ← readBE (48 :: rest) 1 5 4
      let result ← readBE (48 :: rest) 5 9 4
      pure (.I32ReinterpretF32 value result)) := rfl

theorem decode_tag49 (rest : List Byte) :
    StepInfo.decode (49 :: rest) = (do
      let value ← readBE (49 :: rest) 1 9 8
      let result ← readBE (49 :: rest) 9 17 8
      pure (.I64ReinterpretF64 value result)) := rfl

theorem decode_tag50 (rest : List Byte) :
    StepInfo.decode (50 :: rest) = (do
      let value ← readBE (50 :: rest) 1 5 4
      let result ← readBE (50 :: rest) 5 9 4
      pure (.F32ReinterpretI32 value result)) := rfl

theorem decode_tag51 (rest : List Byte) :
    StepInfo.decode (51 :: rest) = (do
      let value ← readBE (51 :: rest) 1 9 8
      let result ← readBE (51 :: rest) 9 17 8
      pure (.F64ReinterpretI64 value result)) := rfl

theorem decode_tag52 (rest : List Byte) :
    StepInfo.decode (52 :: rest) = (do
      let value ← readBE (52 :: rest) 1 9 8
      let result ← readBE (52 :: rest) 9 13 4
      pure (.F32DemoteF64 value result)) := rfl

theorem decode_tag53 (rest : List Byte) :
    StepInfo.decode (53 :: rest) = (do
      let value ← readBE (53 :: rest) 1 5 4
      let result ← readBE (53 :: rest) 5 13 8
      pure (.F64PromoteF32 value result)) := rfl

theorem decode_tag54 (rest : List Byte) :
    StepInfo.decode (54 :: rest) = (do
      let value ← readBE (54 :: rest) 1 5 4
      pure (.F32Const value)) := rfl

theorem decode_tag55 (rest : List Byte) :
    StepInfo.decode (55 :: rest) = (do
      let value ← readBE (55 :: rest) 1 9 8
      pure (.F64Const value)) := rfl

theorem decode_tag56 (rest : List Byte) :
    StepInfo.decode (56 :: rest) = (do
      let cls ← (readByte (56 :: rest) 1).bind RelOp.decode
      let left ← readBE (56 :: rest) 2 6 4
      let right ← readBE (56 :: rest) 6 10 4
      let value ← (readByte (56 :: rest) 9).bind decodeBool
      pure (.F32Comp cls left right value)) := rfl

theorem decode_tag57 (rest : List Byte) :
    StepInfo.decode (57 :: rest) = (do
      let cls ← (readByte (57 :: rest) 1).bind RelOp.decode
      let left ← readBE (57 :: rest) 2 10 8
      let right ← readBE (57 :: rest) 10 18 8
      let value ← (readByte (57 :: rest) 17).bind decodeBool
      pure (.F64Comp cls left right value)) := rfl

theorem decode_tag58 (rest : List Byte) :
    StepInfo.decode (58 :: rest) = (do
      let cls ← (readByte (58 :: rest) 1).bind BinOp.decode
      let left ← readBE (58 :: rest) 2 6 4
      let right ← readBE (58 :: rest) 6 10 4
      let value ← readBE (58 :: rest) 10 14 4
      pure (.F32BinOp cls left right value)) := rfl

theorem decode_tag59 (rest : List Byte) :
    StepInfo.decode (59 :: rest) = (do
      let cls ← (readByte (59 :: rest) 1).bind BinOp.decode
      let left ← readBE (59 :: rest) 2 10 8
      let right ← readBE (59 :: rest) 10 18 8
      let value ← readBE (59 :: rest) 18 26 8
      pure (.F64BinOp cls left right value)) := rfl


/-- The bounds guaranteed by the Rust field types (`i32`/`u32`/`f32`
fields are 32-bit patterns, `i64`/`u64`/`usize`/`f64` fields 64-bit
patterns, `Vec` lengths fit in the `u32` count prefix).  These hold of
every value the Rust `StepInfo` type can represent. -/
def StepInfo.wf : StepInfo → Prop
  | .Br offset => offset < 2 ^ 32
  | .BrIfEqz condition offset => condition < 2 ^ 32 ∧ offset < 2 ^ 32
  | .BrIfNez condition offset => condition < 2 ^ 32 ∧ offset < 2 ^ 32
  | .BrAdjust offset => offset < 2 ^ 32
  | .BrTable index offset => index < 2 ^ 32 ∧ offset < 2 ^ 64
  | .Return d keep_values =>
      d < 2 ^ 32 ∧ keep_values.length < 2 ^ 32 ∧ ∀ v ∈ keep_values, v < 2 ^ 64
  | .Drop => True
  | .Select val1 val2 cond result =>
      val1 < 2 ^ 64 ∧ val2 < 2 ^ 64 ∧ cond < 2 ^ 64 ∧ result < 2 ^ 64
  | .CallInternal args => args.length < 2 ^ 32 ∧ ∀ v ∈ args, v < 2 ^ 64
  | .CallIndirect func_index => func_index < 2 ^ 32
  | .LocalGet depth value => depth < 2 ^ 64 ∧ value < 2 ^ 64
  | .SetLocal depth value => depth < 2 ^ 64 ∧ value < 2 ^ 64
  | .TeeLocal depth value => depth < 2 ^ 64 ∧ value < 2 ^ 64
  | .GetGlobal idx value => idx < 2 ^ 32 ∧ value < 2 ^ 64
  | .SetGlobal idx value => idx < 2 ^ 32 ∧ value < 2 ^ 64
  | .Load _ _ offset raw_address effective_address value bv1 bv2 =>
      offset < 2 ^ 32 ∧ raw_address < 2 ^ 32 ∧ effective_address < 2 ^ 64 ∧
      value < 2 ^ 64 ∧ bv1 < 2 ^ 64 ∧ bv2 < 2 ^ 64
  | .Store _ _ offset raw_address effective_address pb1 ub1 pb2 ub2 value =>
      offset < 2 ^ 32 ∧ raw_address < 2 ^ 32 ∧ effective_address < 2 ^ 64 ∧
      pb1 < 2 ^ 64 ∧ ub1 < 2 ^ 64 ∧ pb2 < 2 ^ 64 ∧ ub2 < 2 ^ 64 ∧ value < 2 ^ 64
  | .MemorySize => True
  | .MemoryGrow grow_size result => grow_size < 2 ^ 32 ∧ result < 2 ^ 32
  | .I32Const value => value < 2 ^ 32
  | .Const32 value _ => value < 2 ^ 32
  | .ConstRef value => value < 2 ^ 64
  | .I64Const value => value < 2 ^ 64
  | .I32BinOp _ left right value _ _ =>
      left < 2 ^ 32 ∧ right < 2 ^ 32 ∧ value < 2 ^ 32
  | .I32BinShiftOp _ left right value =>
      left < 2 ^ 32 ∧ right < 2 ^ 32 ∧ value < 2 ^ 32
  | .I32BinBitOp _ left right value =>
      left < 2 ^ 32 ∧ right < 2 ^ 32 ∧ value < 2 ^ 32
  | .I64BinOp _ left right value =>
      left < 2 ^ 64 ∧ right < 2 ^ 64 ∧ value < 2 ^ 64
  | .I64BinShiftOp _ left right value =>
      left < 2 ^ 64 ∧ right < 2 ^ 64 ∧ value < 2 ^ 64
  | .I64BinBitOp _ left right value =>
      left < 2 ^ 64 ∧ right < 2 ^ 64 ∧ value < 2 ^ 64
  | .UnaryOp _ _ operand result => operand < 2 ^ 64 ∧ result < 2 ^ 64
  | .CompZ _ value result => value < 2 ^ 64 ∧ result < 2 ^ 32
  | .I32Comp _ left right _ => left < 2 ^ 32 ∧ right < 2 ^ 32
  | .I64Comp _ left right _ => left < 2 ^ 64 ∧ right < 2 ^ 64
  | .I32WrapI64 value result => value < 2 ^ 64 ∧ result < 2 ^ 32
  | .I64ExtendI32 value result _ => value < 2 ^ 32 ∧ result < 2 ^ 64
  | .I32SignExtendI8 value result => value < 2 ^ 32 ∧ result < 2 ^ 32
  | .I32SignExtendI16 value result => value < 2 ^ 32 ∧ result < 2 ^ 32
  | .I64SignExtendI8 value result => value < 2 ^ 64 ∧ result < 2 ^ 64
  | .I64SignExtendI16 value result => value < 2 ^ 64 ∧ result < 2 ^ 64
  | .I64SignExtendI32 value result => value < 2 ^ 64 ∧ result < 2 ^ 64
  | .I32TruncF32 value result _ => value < 2 ^ 32 ∧ result < 2 ^ 32
  | .I32TruncF64 value result _ => value < 2 ^ 64 ∧ result < 2 ^ 32
  | .I64TruncF32 value result _ => value < 2 ^ 32 ∧ result < 2 ^ 64
  | .I64TruncF64 value result _ => value < 2 ^ 64 ∧ result < 2 ^ 64
  | .F32ConvertI32 value result _ => value < 2 ^ 32 ∧ result < 2 ^ 32
  | .F32ConvertI64 value result _ => value < 2 ^ 64 ∧ result < 2 ^ 32
  | .F64ConvertI32 value result _ => value < 2 ^ 32 ∧ result < 2 ^ 64
  | .F64ConvertI64 value result _ => value < 2 ^ 64 ∧ result < 2 ^ 64
  | .I32ReinterpretF32 value result => value < 2 ^ 32 ∧ result < 2 ^ 32
  | .I64ReinterpretF64 value result => value < 2 ^ 64 ∧ result < 2 ^ 64
  | .F32ReinterpretI32 value result => value < 2 ^ 32 ∧ result < 2 ^ 32
  | .F64ReinterpretI64 value result => value < 2 ^ 64 ∧ result < 2 ^ 64
  | .F32DemoteF64 value result => value < 2 ^ 64 ∧ result < 2 ^ 32
  | .F64PromoteF32 value result => value < 2 ^ 32 ∧ result < 2 ^ 64
  | .F32Const value => value < 2 ^ 32
  | .F64Const value => value < 2 ^ 64
  | .F32Comp _ left right _ => left < 2 ^ 32 ∧ right < 2 ^ 32
  | .F64Comp _ left right _ => left < 2 ^ 64 ∧ right < 2 ^ 64
  | .F32BinOp _ left right value =>
      left < 2 ^ 32 ∧ right < 2 ^ 32 ∧ value < 2 ^ 32
  | .F64BinOp _ left right value =>
      left < 2 ^ 64 ∧ right < 2 ^ 64 ∧ value < 2 ^ 64

instance (v : StepInfo) : Decidable v.wf := by
  cases v <;> (unfold StepInfo.wf; infer_instance)

/-- The variants on which etable.rs's `decode` inverts `encode`.
Excluded because their decode reads the wrong bytes: `BrTable` and
`CallIndirect` (mis-sized slice, decode always panics), `I64Comp`,
`I32TruncF64`, `F32Comp` and `F64Comp` (the boolean flag is read at a
wrong offset).  For `I32BinOp`/`Const32` the extra address fields that
only mtable.rs mentions must be 0, since the etable.rs wire format does
not carry them. -/
def StepInfo.goodTag : StepInfo → Prop
  | .BrTable _ _ => False
  | .CallIndirect _ => False
  | .I64Comp _ _ _ _ => False
  | .I32TruncF64 _ _ _ => False
  | .F32Comp _ _ _ _ => False
  | .F64Comp _ _ _ _ => False
  | .I32BinOp _ _ _ _ la ra => la = 0 ∧ ra = 0
  | .Const32 _ addr => addr = 0
  | _ => True

instance (v : StepInfo) : Decidable v.goodTag := by
  cases v <;> (unfold StepInfo.goodTag; infer_instance)

set_option maxHeartbeats 1600000 in
/-- C4 (amended): `StepInfo::decode` inverts `StepInfo::encode` on every
variant except `BrTable`, `CallIndirect`, `I64Comp`, `I32TruncF64`,
`F32Comp` and `F64Comp` (see `StepInfo.goodTag`), for all field values
representable in the Rust field types (`StepInfo.wf`). -/
theorem stepinfo_encode_decode_roundtrip (v : StepInfo)
    (hwf : v.wf) (hgood : v.goodTag) :
    StepInfo.decode (StepInfo.encode v) = some v := by
  cases v with
  | Br offset =>
      simp only [StepInfo.wf] at hwf
      rw [StepInfo.encode, decode_tag0]
      simp [readBE, readSlice, toBE, readTailBE, beNat_u32BE hwf]
  | BrIfEqz condition offset =>
      simp only [StepInfo.wf] at hwf
      obtain ⟨h1, h2⟩ := hwf
      rw [StepInfo.encode, decode_tag1]
      simp [readBE, readSlice, toBE, readTailBE, beNat_u32BE h1, beNat_u32BE h2]
  | BrIfNez condition offset =>
      simp only [StepInfo.wf] at hwf
      obtain ⟨h1, h2⟩ := hwf
      rw [StepInfo.encode, decode_tag2]
      simp [readBE, readSlice, toBE, readTailBE, beNat_u32BE h1, beNat_u32BE h2]
  | BrAdjust offset =>
      simp only [StepInfo.wf] at hwf
      rw [StepInfo.encode, decode_tag3]
      simp [readBE, readSlice, toBE, readTailBE, beNat_u32BE hwf]
  | BrTable index offset =>
      simp only [StepInfo.goodTag] at hgood
  | Return d keep_values =>
      simp only [StepInfo.wf] at hwf
      obtain ⟨h1, h2, h3⟩ := hwf
      have hr := readU64s_chunks keep_values (5 :: (u32BE d ++ u32BE keep_values.length)) h3
      simp only [List.cons_append, List.append_assoc, List.length_cons, List.length_append,
        u32BE_length] at hr
      norm_num at hr
      have ha := @readBE_append [5] (u32BE d)
        (u32BE keep_values.length ++ (keep_values.map u64BE).flatten) 4 (u32BE_length d)
      have hb := @readBE_append (5 :: u32BE d) (u32BE keep_values.length)
        ((keep_values.map u64BE).flatten) 4 (u32BE_length keep_values.length)
      simp only [List.cons_append, List.append_assoc, List.length_cons, List.length_append,
        u32BE_length, List.singleton_append] at ha hb
      norm_num at ha hb
      rw [StepInfo.encode, decode_tag5]
      simp [ha, hb, hr, beNat_u32BE h1, beNat_u32BE h2]
  | Drop =>
      rfl
  | Select val1 val2 cond result =>
      simp only [StepInfo.wf] at hwf
      obtain ⟨h1, h2, h3, h4⟩ := hwf
      rw [StepInfo.encode, decode_tag7]
      simp [readBE, readSlice, toBE, readTailBE, beNat_u64BE h1, beNat_u64BE h2, beNat_u64BE h3, beNat_u64BE h4]
  | CallInternal args =>
      simp only [StepInfo.wf] at hwf
      obtain ⟨h1, h2⟩ := hwf
      have hr := readU64s_chunks args (8 :: u32BE args.length) h2
      simp only [List.cons_append, List.append_assoc, List.length_cons, List.length_append,
        u32BE_length] at hr
      norm_num at hr
      have ha := @readBE_append [8] (u32BE args.length)
        ((args.map u64BE).flatten) 4 (u32BE_length args.length)
      simp only [List.cons_append, List.append_assoc, List.length_cons, List.length_append,
        u32BE_length, List.singleton_append] at ha
      norm_num at ha
      rw [StepInfo.encode, decode_tag8]
      simp [ha, hr, beNat_u32BE h1]
  | CallIndirect func_index =>
      simp only [StepInfo.goodTag] at hgood
  | LocalGet depth value =>
      simp only [StepInfo.wf] at hwf
      obtain ⟨h1, h2⟩ := hwf
      rw [StepInfo.encode, decode_tag10]
      simp [readBE, readSlice, toBE, readTailBE, beNat_u64BE h1, beNat_u64BE h2]
  | SetLocal depth value =>
      simp only [StepInfo.wf] at hwf
      obtain ⟨h1, h2⟩ := hwf
      rw [StepInfo.encode, decode_tag11]
      simp [readBE, readSlice, toBE, readTailBE, beNat_u64BE h1, beNat_u64BE h2]
  | TeeLocal depth value =>
      simp only [StepInfo.wf] at hwf
      obtain ⟨h1, h2⟩ := hwf
      rw [StepInfo.encode, decode_tag12]
      simp [readBE, readSlice, toBE, readTailBE, beNat_u64BE h1, beNat_u64BE h2]
  | GetGlobal idx value =>
      simp only [StepInfo.wf] at hwf
      obtain ⟨h1, h2⟩ := hwf
      rw [StepInfo.encode, decode_tag13]
      simp [readBE, readSlice, toBE, readTailBE, beNat_u32BE h1, beNat_u64BE h2]
  | SetGlobal idx value =>
      simp only [StepInfo.wf] at hwf
      obtain ⟨h1, h2⟩ := hwf
      rw [StepInfo.encode, decode_tag14]
      simp [readBE, readSlice, toBE, readTailBE, beNat_u32BE h1, beNat_u64BE h2]
  | Load vtype load_size offset raw_address effective_address value bv1 bv2 =>
      simp only [StepInfo.wf] at hwf
      obtain ⟨h1, h2, h3, h4, h5, h6⟩ := hwf
      rw [StepInfo.encode, decode_tag15]
      simp [readBE, readSlice, toBE, readTailBE, readByte_head_drop, -List.head?_drop, beNat_u32BE h1, beNat_u32BE h2, beNat_u64BE h3, beNat_u64BE h4, beNat_u64BE h5, beNat_u64BE h6]
  | Store vtype store_size offset raw_address effective_address pb1 ub1 pb2 ub2 value =>
      simp only [StepInfo.wf] at hwf
      obtain ⟨h1, h2, h3, h4, h5, h6, h7, h8⟩ := hwf
      rw [StepInfo.encode, decode_tag16]
      simp [readBE, readSlice, toBE, readTailBE, readByte_head_drop, -List.head?_drop, beNat_u32BE h1, beNat_u32BE h2, beNat_u64BE h3, beNat_u64BE h4, beNat_u64BE h5, beNat_u64BE h6, beNat_u64BE h7, beNat_u64BE h8]
  | MemorySize =>
      rfl
  | MemoryGrow grow_size result =>
      simp only [StepInfo.wf] at hwf
      obtain ⟨h1, h2⟩ := hwf
      rw [StepInfo.encode, decode_tag18]
      simp [readBE, readSlice, toBE, readTailBE, beNat_u32BE h1, beNat_u32BE h2]
  | I32Const value =>
      simp only [StepInfo.wf] at hwf
      rw [StepInfo.encode, decode_tag19]
      simp [readBE, readSlice, toBE, readTailBE, beNat_u32BE hwf]
  | Const32 value addr =>
      simp only [StepInfo.goodTag] at hgood
      subst hgood
      simp only [StepInfo.wf] at hwf
      rw [StepInfo.encode, decode_tag20]
      simp [readBE, readSlice, toBE, beNat_u32BE hwf]
  | ConstRef value =>
      simp only [StepInfo.wf] at hwf
      rw [StepInfo.encode, decode_tag21]
      simp [readBE, readSlice, toBE, readTailBE, beNat_u64BE hwf]
  | I64Const value =>
      simp only [StepInfo.wf] at hwf
      rw [StepInfo.encode, decode_tag22]
      simp [readBE, readSlice, toBE, readTailBE, beNat_u64BE hwf]
  | I32BinOp cls left right value la ra =>
      simp only [StepInfo.goodTag] at hgood
      obtain ⟨hla, hra⟩ := hgood
      subst hla; subst hra
      simp only [StepInfo.wf] at hwf
      obtain ⟨h1, h2, h3⟩ := hwf
      rw [StepInfo.encode, decode_tag23]
      simp [readBE, readSlice, toBE, readByte_head_drop, -List.head?_drop,
        beNat_u32BE h1, beNat_u32BE h2, beNat_u32BE h3]
  | I32BinShiftOp cls left right value =>
      simp only [StepInfo.wf] at hwf
      obtain ⟨h1, h2, h3⟩ := hwf
      rw [StepInfo.encode, decode_tag24]
      simp [readBE, readSlice, toBE, readTailBE, readByte_head_drop, -List.head?_drop, beNat_u32BE h1, beNat_u32BE h2, beNat_u32BE h3]
  | I32BinBitOp cls left right value =>
      simp only [StepInfo.wf] at hwf
      obtain ⟨h1, h2, h3⟩ := hwf
      rw [StepInfo.encode, decode_tag25]
      simp [readBE, readSlice, toBE, readTailBE, readByte_head_drop, -List.head?_drop, beNat_u32BE h1, beNat_u32BE h2, beNat_u32BE h3]
  | I64BinOp cls left right value =>
      simp only [StepInfo.wf] at hwf
      obtain ⟨h1, h2, h3⟩ := hwf
      rw [StepInfo.encode, decode_tag26]
      simp [readBE, readSlice, toBE, readTailBE, readByte_head_drop, -List.head?_drop, beNat_u64BE h1, beNat_u64BE h2, beNat_u64BE h3]
  | I64BinShiftOp cls left right value =>
      simp only [StepInfo.wf] at hwf
      obtain ⟨h1, h2, h3⟩ := hwf
      rw [StepInfo.encode, decode_tag27]
      simp [readBE, readSlice, toBE, readTailBE, readByte_head_drop, -List.head?_drop, beNat_u64BE h1, beNat_u64BE h2, beNat_u64BE h3]
  | I64BinBitOp cls left right value =>
      simp only [StepInfo.wf] at hwf
      obtain ⟨h1, h2, h3⟩ := hwf
      rw [StepInfo.encode, decode_tag28]
      simp [readBE, readSlice, toBE, readTailBE, readByte_head_drop, -List.head?_drop, beNat_u64BE h1, beNat_u64BE h2, beNat_u64BE h3]
  | UnaryOp cls vtype operand result =>
      simp only [StepInfo.wf] at hwf
      obtain ⟨h1, h2⟩ := hwf
      rw [StepInfo.encode, decode_tag29]
      simp [readBE, readSlice, toBE, readTailBE, readByte_head_drop, -List.head?_drop, beNat_u64BE h1, beNat_u64BE h2]
  | CompZ vtype value result =>
      simp only [StepInfo.wf] at hwf
      obtain ⟨h1, h2⟩ := hwf
      rw [StepInfo.encode, decode_tag30]
      simp [readBE, readSlice, toBE, readTailBE, readByte_head_drop, -List.head?_drop, beNat_u64BE h1, beNat_u32BE h2]
  | I32Comp cls left right value =>
      simp only [StepInfo.wf] at hwf
      obtain ⟨h1, h2⟩ := hwf
      rw [StepInfo.encode, decode_tag31]
      simp [readBE, readSlice, toBE, readTailBE, readByte_head_drop, -List.head?_drop, beNat_u32BE h1, beNat_u32BE h2]
  | I64Comp cls left right value =>
      simp only [StepInfo.goodTag] at hgood
  | I32WrapI64 value result =>
      simp only [StepInfo.wf] at hwf
      obtain ⟨h1, h2⟩ := hwf
      rw [StepInfo.encode, decode_tag33]
      simp [readBE, readSlice, toBE, readTailBE, beNat_u64BE h1, beNat_u32BE h2]
  | I64ExtendI32 value result sign =>
      simp only [StepInfo.wf] at hwf
      obtain ⟨h1, h2⟩ := hwf
      rw [StepInfo.encode, decode_tag34]
      simp [readBE, readSlice, toBE, readTailBE, readByte_head_drop, -List.head?_drop, beNat_u32BE h1, beNat_u64BE h2]
  | I32SignExtendI8 value result =>
      simp only [StepInfo.wf] at hwf
      obtain ⟨h1, h2⟩ := hwf
      rw [StepInfo.encode, decode_tag35]
      simp [readBE, readSlice, toBE, readTailBE, beNat_u32BE h1, beNat_u32BE h2]
  | I32SignExtendI16 value result =>
      simp only [StepInfo.wf] at hwf
      obtain ⟨h1, h2⟩ := hwf
      rw [StepInfo.encode, decode_tag36]
      simp [readBE, readSlice, toBE, readTailBE, beNat_u32BE h1, beNat_u32BE h2]
  | I64SignExtendI8 value result =>
      simp only [StepInfo.wf] at hwf
      obtain ⟨h1, h2⟩ := hwf
      rw [StepInfo.encode, decode_tag37]
      simp [readBE, readSlice, toBE, readTailBE, beNat_u64BE h1, beNat_u64BE h2]
  | I64SignExtendI16 value result =>
      simp only [StepInfo.wf] at hwf
      obtain ⟨h1, h2⟩ := hwf
      rw [StepInfo.encode, decode_tag38]
      simp [readBE, readSlice, toBE, readTailBE, beNat_u64BE h1, beNat_u64BE h2]
  | I64SignExtendI32 value result =>
      simp only [StepInfo.wf] at hwf
      obtain ⟨h1, h2⟩ := hwf
      rw [StepInfo.encode, decode_tag39]
      simp [readBE, readSlice, toBE, readTailBE, beNat_u64BE h1, beNat_u64BE h2]
  | I32TruncF32 value result sign =>
      simp only [StepInfo.wf] at hwf
      obtain ⟨h1, h2⟩ := hwf
      rw [StepInfo.encode, decode_tag40]
      simp [readBE, readSlice, toBE, readTailBE, readByte_head_drop, -List.head?_drop, beNat_u32BE h1, beNat_u32BE h2]
  | I32TruncF64 value result sign =>
      simp only [StepInfo.goodTag] at hgood
  | I64TruncF32 value result sign =>
      simp only [StepInfo.wf] at hwf
      obtain ⟨h1, h2⟩ := hwf
      rw [StepInfo.encode, decode_tag42]
      simp [readBE, readSlice, toBE, readTailBE, readByte_head_drop, -List.head?_drop, beNat_u32BE h1, beNat_u64BE h2]
  | I64TruncF64 value result sign =>
      simp only [StepInfo.wf] at hwf
      obtain ⟨h1, h2⟩ := hwf
      rw [StepInfo.encode, decode_tag43]
      simp [readBE, readSlice, toBE, readTailBE, readByte_head_drop, -List.head?_drop, beNat_u64BE h1, beNat_u64BE h2]
  | F32ConvertI32 value result sign =>
      simp only [StepInfo.wf] at hwf
      obtain ⟨h1, h2⟩ := hwf
      rw [StepInfo.encode, decode_tag44]
      simp [readBE, readSlice, toBE, readTailBE, readByte_head_drop, -List.head?_drop, beNat_u32BE h1, beNat_u32BE h2]
  | F32ConvertI64 value result sign =>
      simp only [StepInfo.wf] at hwf
      obtain ⟨h1, h2⟩ := hwf
      rw [StepInfo.encode, decode_tag45]
      simp [readBE, readSlice, toBE, readTailBE, readByte_head_drop, -List.head?_drop, beNat_u64BE h1, beNat_u32BE h2]
  | F64ConvertI32 value result sign =>
      simp only [StepInfo.wf] at hwf
      obtain ⟨h1, h2⟩ := hwf
      rw [StepInfo.encode, decode_tag46]
      simp [readBE, readSlice, toBE, readTailBE, readByte_head_drop, -List.head?_drop, beNat_u32BE h1, beNat_u64BE h2]
  | F64ConvertI64 value result sign =>
      simp only [StepInfo.wf] at hwf
      obtain ⟨h1, h2⟩ := hwf
      rw [StepInfo.encode, decode_tag47]
      simp [readBE, readSlice, toBE, readTailBE, readByte_head_drop, -List.head?_drop, beNat_u64BE h1, beNat_u64BE h2]
  | I32ReinterpretF32 value result =>
      simp only [StepInfo.wf] at hwf
      obtain ⟨h1, h2⟩ := hwf
      rw [StepInfo.encode, decode_tag48]
      simp [readBE, readSlice, toBE, readTailBE, beNat_u32BE h1, beNat_u32BE h2]
  | I64ReinterpretF64 value result =>
      simp only [StepInfo.wf] at hwf
      obtain ⟨h1, h2⟩ := hwf
      rw [StepInfo.encode, decode_tag49]
      simp [readBE, readSlice, toBE, readTailBE, beNat_u64BE h1, beNat_u64BE h2]
  | F32ReinterpretI32 value result =>
      simp only [StepInfo.wf] at hwf
      obtain ⟨h1, h2⟩ := hwf
      rw [StepInfo.encode, decode_tag50]
      simp [readBE, readSlice, toBE, readTailBE, beNat_u32BE h1, beNat_u32BE h2]
  | F64ReinterpretI64 value result =>
      simp only [StepInfo.wf] at hwf
      obtain ⟨h1, h2⟩ := hwf
      rw [StepInfo.encode, decode_tag51]
      simp [readBE, readSlice, toBE, readTailBE, beNat_u64BE h1, beNat_u64BE h2]
  | F32DemoteF64 value result =>
      simp only [StepInfo.wf] at hwf
      obtain ⟨h1, h2⟩ := hwf
      rw [StepInfo.encode, decode_tag52]
      simp [readBE, readSlice, toBE, readTailBE, beNat_u64BE h1, beNat_u32BE h2]
  | F64PromoteF32 value result =>
      simp only [StepInfo.wf] at hwf
      obtain ⟨h1, h2⟩ := hwf
      rw [StepInfo.encode, decode_tag53]
      simp [readBE, readSlice, toBE, readTailBE, beNat_u32BE h1, beNat_u64BE h2]
  | F32Const value =>
      simp only [StepInfo.wf] at hwf
      rw [StepInfo.encode, decode_tag54]
      simp [readBE, readSlice, toBE, readTailBE, beNat_u32BE hwf]
  | F64Const value =>
      simp only [StepInfo.wf] at hwf
      rw [StepInfo.encode, decode_tag55]
      simp [readBE, readSlice, toBE, readTailBE, beNat_u64BE hwf]
  | F32Comp cls left right value =>
      simp only [StepInfo.goodTag] at hgood
  | F64Comp cls left right value =>
      simp only [StepInfo.goodTag] at hgood
  | F32BinOp cls left right value =>
      simp only [StepInfo.wf] at hwf
      obtain ⟨h1, h2, h3⟩ := hwf
      rw [StepInfo.encode, decode_tag58]
      simp [readBE, readSlice, toBE, readTailBE, readByte_head_drop, -List.head?_drop, beNat_u32BE h1, beNat_u32BE h2, beNat_u32BE h3]
  | F64BinOp cls left right value =>
      simp only [StepInfo.wf] at hwf
      obtain ⟨h1, h2, h3⟩ := hwf
      rw [StepInfo.encode, decode_tag59]
      simp [readBE, readSlice, toBE, readTailBE, readByte_head_drop, -List.head?_drop, beNat_u64BE h1, beNat_u64BE h2, beNat_u64BE h3]


/-- C4 counterexample: the `I64Comp` decode arm reads its boolean flag at
byte 17 (the last byte of `right`) instead of byte 18 where the encoder
put it, so `decode(encode(v)) ≠ v` at
`I64Comp { class: Eq, left: 0, right: 0, value: true }`: the round trip
flips `value` to `false`. -/
theorem stepinfo_codec_roundtrip_cex :
    StepInfo.decode (StepInfo.encode (.I64Comp .Eq 0 0 true)) =
      some (.I64Comp .Eq 0 0 false) ∧
    StepInfo.decode (StepInfo.encode (.I64Comp .Eq 0 0 true)) ≠
      some (.I64Comp .Eq 0 0 true) := by
  refine ⟨rfl, fun h => ?_⟩
  rw [show StepInfo.decode (StepInfo.encode (.I64Comp .Eq 0 0 true)) =
      some (.I64Comp .Eq 0 0 false) from rfl] at h
  simp at h

/-- Witness for `stepinfo_encode_decode_roundtrip` at
`Return { drop: 3, keep_values: [1, 2] }`. -/
theorem stepinfo_encode_decode_roundtrip_witness :
    (StepInfo.Return 3 [1, 2]).wf ∧ (StepInfo.Return 3 [1, 2]).goodTag ∧
    StepInfo.decode (StepInfo.encode (.Return 3 [1, 2])) = some (.Return 3 [1, 2]) :=
  ⟨by decide, by decide, stepinfo_encode_decode_roundtrip _ (by decide) (by decide)⟩

/-! ## `ETable` and the shard codec (etable.rs) -/

/-- Modelled from the spec: `ValueStackPtr` (crate::engine::stack, not
under src/) is "an opaque, totally ordered cursor into a logically
infinite append-only stack address space supporting signed offset
arithmetic (`add(n)`, `sub(n)`, `difference(other)`)"; embedded as an
integer index.  `offset_from` is subtraction, `into_add`/`into_sub` add
and subtract a `usize`. -/
abbrev ValueStackPtr := Int

/-- etable.rs `ETEntry`. -/
structure ETEntry where
  eid : Nat
  allocated_memory_pages : Nat
  step_info : StepInfo
  sp : ValueStackPtr
deriving Repr

/-- etable.rs `ETable` — a newtype over `Vec<ETEntry>`, embedded as the
entry list itself. -/
abbrev ETable := List ETEntry

/-- etable.rs `St`, the shard step-marker type. -/
inductive St where
  | M (pages : Nat)
  | I (bytes : List Byte)
  | D (delta : Int)
deriving DecidableEq, Repr

/-- etable.rs `Shard`. -/
structure Shard where
  eid : Nat
  allocated_memory_pages : Nat
  stack_pointer : ValueStackPtr
  steps : List St
deriving DecidableEq, Repr

/-- etable.rs `ETable::push`: appends an entry with
`eid = entries.len() + 1`. -/
def ETable.push (t : ETable) (allocated_memory_pages : Nat) (step_info : StepInfo)
    (sp : ValueStackPtr) : ETable :=
  t ++ [{ eid := t.length + 1, allocated_memory_pages, step_info, sp }]

/-- An `ETable` built from a fresh (`default`) table by a sequence of
`push` calls, one per element of `steps`. -/
def ETable.ofPushes (steps : List (Nat × StepInfo × ValueStackPtr)) : ETable :=
  steps.foldl (fun t x => t.push x.1 x.2.1 x.2.2) []

/-- The per-entry marker emission of `ETable::into_shards` (the closure
mapped over each chunk): `num_memory_pages` is the chunk's first
entry's page count, fixed for the whole chunk; the threaded
`stack_pointer` starts at the chunk's first entry's `sp` and is set to
each entry's `sp` after it is processed. -/
def chunkSteps (num_memory_pages : Nat) : ValueStackPtr → List ETEntry → List (List St)
  | _, [] => []
  | stack_pointer, e :: rest =>
      ((if num_memory_pages ≠ e.allocated_memory_pages
          then [St.M e.allocated_memory_pages] else []) ++
       (if e.sp - stack_pointer ≠ 0 then [St.D (e.sp - stack_pointer)] else []) ++
       [St.I e.step_info.encode]) :: chunkSteps num_memory_pages e.sp rest

/-- The chunk-to-`Shard` conversion of `ETable::into_shards`: the shard's
baseline is `chunk[0]`.  (Rust panics on an empty chunk; the dummy first
arm is unreachable for shard counts in `[1, len]`.) -/
def shardOfChunk : List ETEntry → Shard
  | [] => { eid := 0, allocated_memory_pages := 0, stack_pointer := 0, steps := [] }
  | e :: rest =>
      { eid := e.eid
        allocated_memory_pages := e.allocated_memory_pages
        stack_pointer := e.sp
        steps := (chunkSteps e.allocated_memory_pages e.sp (e :: rest)).flatten }

/-- The chunking loop of `ETable::into_shards`: `num_shards` chunks of
`chunk_size` entries each, the first `remainder` chunks getting one
extra entry (`r` counts the extra-entry chunks still owed). -/
def splitChunksAux (chunk_size : Nat) : Nat → Nat → List ETEntry → List (List ETEntry)
  | 0, _, _ => []
  | k + 1, r, es =>
      es.take (chunk_size + if 0 < r then 1 else 0) ::
        splitChunksAux chunk_size k (r - 1)
          (es.drop (chunk_size + if 0 < r then 1 else 0))

/-- etable.rs `ETable::into_shards`. -/
def ETable.into_shards (t : ETable) (num_shards : Nat) : List Shard :=
  (splitChunksAux (t.length / num_shards) num_shards (t.length % num_shards) t).map
    shardOfChunk

/-- The marker-replay loop of `ETable::from_shards` for one shard's
steps: `St.M` sets the running page count, `St.D` moves the running
stack pointer (`into_sub(delta.abs())` for negative deltas,
`into_add(delta)` for positive), and `St.I` decodes one entry whose
`eid` is the shard baseline `eid` plus the running `St.I` index.
`none` models the decode panics. -/
def replaySteps (eid : Nat) : Nat → ValueStackPtr → Nat → List St → Option (List ETEntry)
  | _, _, _, [] => some []
  | pages, sp, index, St.I step_info :: rest => do
      let si ← StepInfo.decode step_info
      let tail ← replaySteps eid pages sp (index + 1) rest
      pure ({ eid := eid + index, allocated_memory_pages := pages,
              step_info := si, sp := sp } :: tail)
  | _, sp, index, St.M mem :: rest => replaySteps eid mem sp index rest
  | pages, sp, index, St.D delta :: rest =>
      replaySteps eid pages
        (if delta < 0 then sp - (delta.natAbs : Int)
         else if delta > 0 then sp + (delta.natAbs : Int) else sp)
        index rest

/-- etable.rs `ETable::from_shards` (`none` models the
`assert!(!shards.is_empty())` and decode panics). -/
def ETable.from_shards (shards : List Shard) : Option ETable :=
  if shards.isEmpty then none
  else
    (shards.mapM fun s =>
      replaySteps s.eid s.allocated_memory_pages s.stack_pointer 0 s.steps).map
      List.flatten

/-! ## Round-trip analysis of the shard codec -/

/-- Consecutive `eid`s starting at `k` (what `ETable::push` produces, and
what `from_shards`'s `eid + index` reconstruction requires). -/
def EidSeq : Nat → List ETEntry → Prop
  | _, [] => True
  | k, e :: rest => e.eid = k ∧ EidSeq (k + 1) rest

instance EidSeq.instDec : (k : Nat) → (l : List ETEntry) → Decidable (EidSeq k l)
  | _, [] => isTrue trivial
  | k, _ :: rest =>
      have := EidSeq.instDec (k + 1) rest
      inferInstanceAs (Decidable (_ ∧ _))

/-- The invariant that makes `from_shards`'s page replay agree with the
original entries: `b` is the shard baseline page count, `p` the running
replay page count; whenever an entry's page count equals the baseline
(so `into_shards` emitted no `St.M` marker for it), the running count
must already be the baseline. -/
def PagesRespect (b : Nat) : Nat → List ETEntry → Prop
  | _, [] => True
  | p, e :: rest =>
      (e.allocated_memory_pages = b → p = b) ∧
      PagesRespect b e.allocated_memory_pages rest

/-- The `St.D` replay of `from_shards` moves the stack pointer by exactly
the recorded delta. -/
theorem replay_sp (sp delta : Int) :
    (if delta < 0 then sp - (delta.natAbs : Int)
     else if delta > 0 then sp + (delta.natAbs : Int) else sp) = sp + delta := by
  split_ifs <;> omega

/-- Replaying the markers `into_shards` emits for one chunk reconstructs
the chunk, given that every entry's `step_info` survives the byte codec,
the chunk's `eid`s continue `eid0 + index` consecutively, and the page
counts respect the baseline-marker scheme. -/
theorem replay_chunkSteps (b : Nat) :
    ∀ (chunk : List ETEntry) (p : Nat) (q : ValueStackPtr) (eid0 index : Nat),
      (∀ e ∈ chunk, StepInfo.decode (StepInfo.encode e.step_info) = some e.step_info) →
      EidSeq (eid0 + index) chunk →
      PagesRespect b p chunk →
      replaySteps eid0 p q index ((chunkSteps b q chunk).flatten) = some chunk := by
  intro chunk
  induction chunk with
  | nil => intro p q eid0 index _ _ _; rfl
  | cons e rest ih =>
    intro p q eid0 index hcodec heid hpages
    obtain ⟨heid1, heid2⟩ := heid
    obtain ⟨hp1, hp2⟩ := hpages
    have hcode : StepInfo.decode (StepInfo.encode e.step_info) = some e.step_info :=
      hcodec e (List.mem_cons_self ..)
    have hcrest : ∀ x ∈ rest, StepInfo.decode (StepInfo.encode x.step_info) = some x.step_info :=
      fun x hx => hcodec x (List.mem_cons_of_mem _ hx)
    have heid2' : EidSeq (eid0 + (index + 1)) rest := by
      rw [show eid0 + (index + 1) = eid0 + index + 1 from rfl]; exact heid2
    have hrec := ih e.allocated_memory_pages e.sp eid0 (index + 1) hcrest heid2' hp2
    have hentry : ETEntry.mk (eid0 + index) e.allocated_memory_pages e.step_info e.sp = e := by
      cases e; simp_all
    by_cases hM : b ≠ e.allocated_memory_pages <;> by_cases hD : e.sp - q ≠ 0
    · simp only [chunkSteps, if_pos hM, if_pos hD, List.flatten, List.cons_append,
        List.nil_append, List.append_assoc, List.singleton_append]
      simp only [replaySteps, replay_sp]
      rw [show q + (e.sp - q) = e.sp by ring]
      simp [hcode, hrec, hentry]
    · push_neg at hD
      have hq : q = e.sp := (sub_eq_zero.mp hD).symm
      subst hq
      simp only [chunkSteps, if_pos hM, if_neg (not_not_intro hD), List.flatten,
        List.cons_append, List.nil_append, List.append_assoc, List.singleton_append]
      simp only [replaySteps]
      simp [hcode, hrec, hentry]
    · push_neg at hM
      have hpb : p = e.allocated_memory_pages := hM ▸ hp1 hM.symm
      subst hpb
      simp only [chunkSteps, if_neg (not_not_intro hM), if_pos hD, List.flatten,
        List.cons_append, List.nil_append, List.append_assoc, List.singleton_append]
      simp only [replaySteps, replay_sp]
      rw [show q + (e.sp - q) = e.sp by ring]
      simp [hcode, hrec, hentry]
    · push_neg at hM
      push_neg at hD
      have hpb : p = e.allocated_memory_pages := hM ▸ hp1 hM.symm
      subst hpb
      have hq : q = e.sp := (sub_eq_zero.mp hD).symm
      subst hq
      simp only [chunkSteps, if_neg (not_not_intro hM), if_neg (not_not_intro hD), List.flatten,
        List.cons_append, List.nil_append, List.append_assoc, List.singleton_append]
      simp only [replaySteps]
      simp [hcode, hrec, hentry]

/-- The page-count ordering used below (wasm memory only grows, and this
is what the amended round-trip claim assumes). -/
def PagesLE (a b : ETEntry) : Prop :=
  a.allocated_memory_pages ≤ b.allocated_memory_pages

instance : IsTrans ETEntry PagesLE := ⟨fun _ _ _ hab hbc => Nat.le_trans hab hbc⟩

instance (a b : ETEntry) : Decidable (PagesLE a b) :=
  inferInstanceAs (Decidable (_ ≤ _))

theorem eidSeq_append :
    ∀ (xs ys : List ETEntry) (k : Nat),
      EidSeq k (xs ++ ys) ↔ EidSeq k xs ∧ EidSeq (k + xs.length) ys
  | [], ys, k => by simp [EidSeq]
  | x :: xs, ys, k => by
    show x.eid = k ∧ EidSeq (k + 1) (xs ++ ys) ↔
      (x.eid = k ∧ EidSeq (k + 1) xs) ∧ EidSeq (k + (xs.length + 1)) ys
    rw [eidSeq_append xs ys (k + 1),
      show k + (xs.length + 1) = k + 1 + xs.length from by omega]
    tauto

theorem pagesRespect_of_mono (b : Nat) :
    ∀ (chunk : List ETEntry) (p : Nat),
      List.Pairwise PagesLE chunk →
      (∀ e ∈ chunk, b ≤ e.allocated_memory_pages) →
      (∀ e ∈ chunk.head?, e.allocated_memory_pages = b → p = b) →
      PagesRespect b p chunk := by
  intro chunk
  induction chunk with
  | nil => intro p _ _ _; trivial
  | cons e rest ih =>
    intro p hpw hble hhead
    rw [List.pairwise_cons] at hpw
    refine ⟨hhead e (by simp), ?_⟩
    refine ih e.allocated_memory_pages hpw.2 (fun x hx => hble x (List.mem_cons_of_mem _ hx)) ?_
    intro x hx hxb
    rcases rest with _ | ⟨y, ys⟩
    · simp at hx
    · have hxy : y = x := by simpa using hx
      have h1 : e.allocated_memory_pages ≤ y.allocated_memory_pages := hpw.1 y (by simp)
      have h2 : b ≤ e.allocated_memory_pages := hble e (by simp)
      have hxb' : y.allocated_memory_pages = b := by rw [hxy]; exact hxb
      omega

theorem splitChunksAux_length (cs : Nat) :
    ∀ (k r : Nat) (es : List ETEntry), (splitChunksAux cs k r es).length = k := by
  intro k
  induction k with
  | zero => intro r es; rfl
  | succ k ih => intro r es; simp [splitChunksAux, ih]

theorem mapM_replay_chunks (cs : Nat) (hcs : 1 ≤ cs) :
    ∀ (k r : Nat) (es : List ETEntry) (eid0 : Nat),
      es.length = cs * k + min r k →
      (∀ e ∈ es, StepInfo.decode (StepInfo.encode e.step_info) = some e.step_info) →
      EidSeq eid0 es →
      List.Pairwise PagesLE es →
      ((splitChunksAux cs k r es).map shardOfChunk).mapM
          (fun s => replaySteps s.eid s.allocated_memory_pages s.stack_pointer 0 s.steps)
        = some (splitChunksAux cs k r es) ∧
      (splitChunksAux cs k r es).flatten = es := by
  intro k
  induction k with
  | zero =>
    intro r es eid0 hlen _ _ _
    have hnil : es = [] := List.length_eq_zero.mp (by simpa using hlen)
    subst hnil
    exact ⟨rfl, rfl⟩
  | succ k ih =>
    intro r es eid0 hlen hcodec heid hpw
    have hmul : cs * (k + 1) = cs * k + cs := by ring
    rw [hmul] at hlen
    set sz := cs + if 0 < r then 1 else 0 with hsz
    have hs1 : 1 ≤ sz := by rw [hsz]; split_ifs <;> omega
    have hs2 : sz ≤ es.length := by
      rw [hlen, hsz]; split_ifs with hr
      · have : 1 ≤ min r (k + 1) := by omega
        omega
      · omega
    have hlentake : (es.take sz).length = sz := by
      simp [List.length_take]; omega
    have hlendrop : (es.drop sz).length = cs * k + min (r - 1) k := by
      simp only [List.length_drop, hlen, hsz]
      split_ifs with hr <;> omega
    obtain ⟨e, ctail, hchunk⟩ : ∃ e ctail, es.take sz = e :: ctail := by
      cases hes : es.take sz with
      | nil =>
        exfalso
        have : (es.take sz).length = 0 := by rw [hes]; rfl
        omega
      | cons e t => exact ⟨e, t, rfl⟩
    have hsplit : es = es.take sz ++ es.drop sz := (List.take_append_drop sz es).symm
    have hcodec_chunk : ∀ x ∈ es.take sz,
        StepInfo.decode (StepInfo.encode x.step_info) = some x.step_info :=
      fun x hx => hcodec x (List.mem_of_mem_take hx)
    have hcodec_drop : ∀ x ∈ es.drop sz,
        StepInfo.decode (StepInfo.encode x.step_info) = some x.step_info :=
      fun x hx => hcodec x (List.mem_of_mem_drop hx)
    have hpw' := hpw
    rw [hsplit, List.pairwise_append] at hpw'
    have heid' := heid
    rw [hsplit, eidSeq_append, hlentake] at heid'
    have heid_chunk : EidSeq eid0 (e :: ctail) := hchunk ▸ heid'.1
    have heid_head : e.eid = eid0 := heid_chunk.1
    have hpw_chunk : List.Pairwise PagesLE (e :: ctail) := hchunk ▸ hpw'.1
    have hreplay : replaySteps e.eid e.allocated_memory_pages e.sp 0
        ((chunkSteps e.allocated_memory_pages e.sp (e :: ctail)).flatten) =
        some (e :: ctail) := by
      apply replay_chunkSteps
      · rw [← hchunk]; exact hcodec_chunk
      · rw [Nat.add_zero, heid_head]; exact heid_chunk
      · apply pagesRespect_of_mono
        · exact hpw_chunk
        · intro x hx
          rcases List.mem_cons.mp hx with hx | hx
          · rw [hx]
          · exact (List.pairwise_cons.mp hpw_chunk).1 x hx
        · intro x hx hxb
          exact hxb.symm ▸ rfl
    have hih := ih (r - 1) (es.drop sz) (eid0 + sz) hlendrop hcodec_drop
      (by
        have := heid'.2
        rwa [hsz] at this ⊢)
      hpw'.2.1
    constructor
    · show ((es.take sz :: splitChunksAux cs k (r - 1) (es.drop sz)).map shardOfChunk).mapM _
        = some (es.take sz :: splitChunksAux cs k (r - 1) (es.drop sz))
      rw [List.map_cons, List.mapM_cons]
      rw [hchunk]
      show (replaySteps (shardOfChunk (e :: ctail)).eid
          (shardOfChunk (e :: ctail)).allocated_memory_pages
          (shardOfChunk (e :: ctail)).stack_pointer 0
          (shardOfChunk (e :: ctail)).steps).bind _ = _
      have hsh : shardOfChunk (e :: ctail) =
          { eid := e.eid, allocated_memory_pages := e.allocated_memory_pages,
            stack_pointer := e.sp,
            steps := (chunkSteps e.allocated_memory_pages e.sp (e :: ctail)).flatten } := rfl
      rw [hsh]
      simp only [hreplay, Option.some_bind, hih.1, Option.bind_eq_bind]
      simp [hih.1]
    · show (es.take sz :: splitChunksAux cs k (r - 1) (es.drop sz)).flatten = es
      simp only [List.flatten_cons, hih.2]
      exact List.take_append_drop sz es

/-- Concrete counterexample table: page counts 1, 2, 1. -/
def etableCexPages : ETable :=
  [⟨1, 1, .Drop, 0⟩, ⟨2, 2, .Drop, 0⟩, ⟨3, 1, .Drop, 0⟩]

/-- Concrete witness table: codec-safe steps, consecutive `eid`s,
non-decreasing page counts, moving stack pointer. -/
def etableWitness : ETable :=
  [⟨1, 1, .Drop, 0⟩, ⟨2, 1, .I32Const 7, 5⟩, ⟨3, 2, .LocalGet 0 9, 3⟩]

/-- C1 (amended): `from_shards ∘ into_shards` is the identity, field for
field, for every shard count `N ∈ [1, len(E)]` — including `N = 1`,
`N = len(E)` and `len(E) % N ≠ 0` — provided (a) every entry's
`step_info` survives the byte codec (`decode(encode(si)) = si`), (b) the
`eid`s are consecutive from some base, and (c) `allocated_memory_pages`
is non-decreasing along the table.  (The code violates the unconditional
claim: see `etable_shard_roundtrip_cex` for (c), and
`stepinfo_codec_roundtrip_cex` for (a); (b) is forced because
reconstruction assigns `eid = shard base + index`.) -/
theorem etable_shard_roundtrip (t : ETable) (n : Nat) (h1 : 1 ≤ n) (h2 : n ≤ t.length)
    (hcodec : ∀ e ∈ t, StepInfo.decode (StepInfo.encode e.step_info) = some e.step_info)
    (k : Nat) (heid : EidSeq k t) (hmono : List.Chain' PagesLE t) :
    ETable.from_shards (t.into_shards n) = some t := by
  have hpw : List.Pairwise PagesLE t := List.chain'_iff_pairwise.mp hmono
  have hn0 : 0 < n := h1
  have hcs : 1 ≤ t.length / n := (Nat.one_le_div_iff hn0).mpr h2
  have hmod : t.length % n < n := Nat.mod_lt _ hn0
  have hlen : t.length = (t.length / n) * n + min (t.length % n) n := by
    rw [Nat.min_eq_left hmod.le]
    conv_lhs => rw [← Nat.div_add_mod t.length n]
    ring
  have hmain := mapM_replay_chunks (t.length / n) hcs n (t.length % n) t k hlen hcodec heid hpw
  show (if ((splitChunksAux (t.length / n) n (t.length % n) t).map shardOfChunk).isEmpty
      then none
      else (((splitChunksAux (t.length / n) n (t.length % n) t).map shardOfChunk).mapM
        fun s => replaySteps s.eid s.allocated_memory_pages s.stack_pointer 0 s.steps).map
        List.flatten) = some t
  rw [if_neg (by
    simp only [List.isEmpty_iff, List.map_eq_nil_iff]
    intro hnil
    have := splitChunksAux_length (t.length / n) n (t.length % n) t
    rw [hnil] at this
    simp at this
    omega)]
  rw [hmain.1]
  simp [hmain.2]

/-- C1 counterexample: a page count that returns to the shard baseline
breaks the round trip.  For the 3-entry table with page counts 1, 2, 1
(all `Drop` steps, consecutive `eid`s), `into_shards` with `N = 1`
compares each entry's pages against the shard's *first* entry's count, so
the third entry (pages 1 = baseline) gets no `St.M` marker even though it
differs from its predecessor (pages 2); reconstruction therefore gives
the third entry 2 pages instead of 1. -/
theorem etable_shard_roundtrip_cex :
    (1 ≤ 1 ∧ 1 ≤ etableCexPages.length) ∧
    ETable.from_shards (etableCexPages.into_shards 1) =
      some [⟨1, 1, .Drop, 0⟩, ⟨2, 2, .Drop, 0⟩, ⟨3, 2, .Drop, 0⟩] ∧
    ETable.from_shards (etableCexPages.into_shards 1) ≠ some etableCexPages := by
  refine ⟨⟨Nat.le_refl 1, by simp [etableCexPages]⟩, rfl, fun h => ?_⟩
  rw [show ETable.from_shards (etableCexPages.into_shards 1) =
      some [⟨1, 1, .Drop, 0⟩, ⟨2, 2, .Drop, 0⟩, ⟨3, 2, .Drop, 0⟩] from rfl] at h
  simp [etableCexPages] at h

/-- Witness table for `etable_shard_roundtrip`. -/
theorem etable_shard_roundtrip_witness :
    ETable.from_shards (etableWitness.into_shards 2) = some etableWitness :=
  etable_shard_roundtrip etableWitness 2 (by decide) (by decide)
    (by intro e he; simp [etableWitness] at he; rcases he with rfl | rfl | rfl <;> rfl) 1 (by decide)
    (by simp [etableWitness, PagesLE])

/-! ## `ETable::push` eid discipline (C9) -/

theorem ofPushes_go :
    ∀ (steps : List (Nat × StepInfo × ValueStackPtr)) (t : ETable),
      (steps.foldl (fun t x => t.push x.1 x.2.1 x.2.2) t).map (·.eid)
        = t.map (·.eid) ++ List.range' (t.length + 1) steps.length := by
  intro steps
  induction steps with
  | nil => intro t; simp
  | cons s steps ih =>
    intro t
    simp only [List.foldl_cons, List.length_cons]
    rw [ih]
    simp only [ETable.push, List.map_append, List.length_append, List.map_cons, List.map_nil,
      List.length_cons, List.length_nil]
    rw [List.range'_succ]
    simp [List.append_assoc]

/-- C9: in an `ETable` built exclusively by `push` calls from the empty
table, the `eid`s are exactly `1, 2, …, n` in order (`entries[i].eid =
i + 1`): each `push` assigns `eid = len + 1`, so there are no gaps and no
reuse. -/
theorem etable_push_eids (steps : List (Nat × StepInfo × ValueStackPtr)) :
    (ETable.ofPushes steps).map (·.eid) = List.range' 1 steps.length := by
  unfold ETable.ofPushes
  rw [ofPushes_go]
  simp

/-! ## `into_shards` marker emission (C7) -/

/-- The stack pointer against which `into_shards` computes entry `i`'s
delta marker: the threaded `stack_pointer` equals the chunk's baseline
`q` for `i = 0` and entry `i - 1`'s `sp` afterwards. -/
def spBefore (q : ValueStackPtr) : List ETEntry → Nat → ValueStackPtr
  | _, 0 => q
  | [], _ + 1 => q
  | e :: rest, i + 1 => spBefore e.sp rest i

theorem spBefore_get :
    ∀ (chunk : List ETEntry) (q : ValueStackPtr) (i : Nat) (e : ETEntry),
      chunk.get? i = some e → spBefore q chunk (i + 1) = e.sp := by
  intro chunk
  induction chunk with
  | nil => intro q i e he; simp at he
  | cons x rest ih =>
    intro q i e he
    cases i with
    | zero =>
      simp at he
      subst he
      simp [spBefore]
    | succ i =>
      simp only [List.get?_cons_succ] at he
      show spBefore x.sp rest (i + 1) = e.sp
      exact ih x.sp i e he

theorem chunkSteps_get? (b : Nat) :
    ∀ (chunk : List ETEntry) (q : ValueStackPtr) (i : Nat),
      (chunkSteps b q chunk).get? i = (chunk.get? i).map (fun e =>
        (if b ≠ e.allocated_memory_pages then [St.M e.allocated_memory_pages] else []) ++
        (if e.sp - spBefore q chunk i ≠ 0 then [St.D (e.sp - spBefore q chunk i)] else []) ++
        [St.I e.step_info.encode]) := by
  intro chunk
  induction chunk with
  | nil => intro q i; simp [chunkSteps]
  | cons e rest ih =>
    intro q i
    cases i with
    | zero => rfl
    | succ i =>
      show (chunkSteps b e.sp rest).get? i = _
      rw [ih e.sp i]
      rfl

theorem group_mem_M (c1 c2 : Prop) [Decidable c1] [Decidable c2] (p : Nat) (d : Int)
    (bs : List Byte) :
    (∃ m, St.M m ∈ (if c1 then [St.M p] else []) ++
      ((if c2 then [St.D d] else []) ++ [St.I bs])) ↔ c1 := by
  split_ifs with h1 h2 <;> simp_all

theorem group_mem_D (c1 c2 : Prop) [Decidable c1] [Decidable c2] (p : Nat) (d : Int)
    (bs : List Byte) :
    (∃ x, St.D x ∈ (if c1 then [St.M p] else []) ++
      ((if c2 then [St.D d] else []) ++ [St.I bs])) ↔ c2 := by
  split_ifs with h1 h2 <;> simp_all

theorem group_mem_I (c1 c2 : Prop) [Decidable c1] [Decidable c2] (p : Nat) (d : Int)
    (bs : List Byte) :
    St.I bs ∈ (if c1 then [St.M p] else []) ++
      ((if c2 then [St.D d] else []) ++ [St.I bs]) := by
  split_ifs <;> simp

/-- C7 (amended): within each shard produced by `into_shards` (whose
per-entry marker groups are `chunkSteps` applied to the chunk's first
entry's page count and stack pointer, flattened in order), entry `i`'s
group contains a page-count marker `St.M` iff its page count differs from
the *shard's first entry's* page count (the baseline) — not from the
immediately preceding entry's, as claimed; it contains a stack-delta
marker `St.D` iff its `sp` moved since the immediately preceding entry
(`spBefore`, the baseline for `i = 0`); and it always contains the
encoded-instruction marker `St.I`. -/
theorem into_shards_markers (chunk : List ETEntry) (e0 : ETEntry)
    (h0 : chunk.head? = some e0) (i : Nat) (e : ETEntry) (g : List St)
    (he : chunk.get? i = some e)
    (hg : (chunkSteps e0.allocated_memory_pages e0.sp chunk).get? i = some g) :
    ((∃ m, St.M m ∈ g) ↔ e.allocated_memory_pages ≠ e0.allocated_memory_pages) ∧
    ((∃ d, St.D d ∈ g) ↔ e.sp ≠ spBefore e0.sp chunk i) ∧
    St.I (StepInfo.encode e.step_info) ∈ g := by
  rw [chunkSteps_get? e0.allocated_memory_pages chunk e0.sp i, he] at hg
  simp only [Option.map_some', Option.some.injEq] at hg
  subst hg
  rw [List.append_assoc]
  refine ⟨?_, ?_, ?_⟩
  · rw [group_mem_M]
    exact ne_comm
  · rw [group_mem_D]
    exact sub_ne_zero
  · exact group_mem_I ..

/-- C7 counterexample: for the table with page counts 1, 2, 1, the
single shard's steps are `[I, M 2, I, I]` — the third entry's marker
group (`chunkSteps … |>.get? 2`) has no `St.M` marker although its page
count (1) differs from the immediately preceding entry's (2), because
`into_shards` compares against the shard's first entry's count (1). -/
theorem into_shards_markers_cex :
    (etableCexPages.into_shards 1).map Shard.steps =
      [[St.I [6], St.M 2, St.I [6], St.I [6]]] ∧
    (chunkSteps 1 0 etableCexPages).get? 2 = some [St.I [6]] ∧
    (etableCexPages.get? 2).map (·.allocated_memory_pages) = some 1 ∧
    (etableCexPages.get? 1).map (·.allocated_memory_pages) = some 2 := by
  decide

/-- Witness for `into_shards_markers` at chunk `etableCexPages`,
entry index 1. -/
theorem into_shards_markers_witness :
    ((∃ m, St.M m ∈ [St.M 2, St.I [6]]) ↔ (2 : Nat) ≠ 1) ∧
    ((∃ d, St.D d ∈ [St.M 2, St.I [6]]) ↔ (0 : Int) ≠ spBefore 0 etableCexPages 1) ∧
    St.I (StepInfo.encode .Drop) ∈ [St.M 2, St.I [6]] :=
  into_shards_markers etableCexPages ⟨1, 1, .Drop, 0⟩ rfl 1 ⟨2, 2, .Drop, 0⟩
    [St.M 2, St.I [6]] rfl rfl

/-! ## `MTable` / `IMTable` data model (mtable.rs, imtable.rs) -/

/-- mtable.rs `LocationType`. -/
inductive LocationType where
  | Stack | Heap | Global
deriving DecidableEq, Repr

/-- mtable.rs `AccessType`. -/
inductive AccessType where
  | Read | Write | Init
deriving DecidableEq, Repr

/-- mtable.rs `MemoryTableEntry`. -/
structure MemoryTableEntry where
  eid : Nat
  emid : Nat
  addr : Nat
  ltype : LocationType
  atype : AccessType
  is_mutable : Bool
  value : Nat
deriving DecidableEq, Repr

/-- imtable.rs `IMTableEntry`. -/
structure IMTableEntry where
  ltype : LocationType
  is_mutable : Bool
  start_offset : Nat
  end_offset : Nat
  vtype : VarType
  value : Nat
deriving DecidableEq, Repr

/-- imtable.rs `IMTable` — a newtype over `Vec<IMTableEntry>`. -/
abbrev IMTable := List IMTableEntry

/-- imtable.rs `IMTable::push`. -/
def IMTable.push (t : IMTable) (is_global is_mutable : Bool)
    (start_offset end_offset : Nat) (vtype : VarType) (value : Nat) : IMTable :=
  t ++ [{ ltype := if is_global then LocationType.Global else LocationType.Heap,
          is_mutable, start_offset, end_offset, vtype, value }]

/-- imtable.rs `IMTable::try_find`: returns `Some((0, 0, 0))` regardless
of the table's contents (the real lookup is commented out in the
source). -/
def IMTable.try_find (_t : IMTable) : Option (Nat × Nat × Nat) := some (0, 0, 0)

/-- mtable.rs `MTable` — a newtype over `Vec<MemoryTableEntry>`. -/
abbrev MTable := List MemoryTableEntry

/-- mtable.rs `MTable::new`: wraps the entries and discards its
`imtable` argument. -/
def MTable.new (entries : MTable) (_imtable : IMTable) : MTable := entries

/-- mtable.rs `memory_event_of_step`.  The source mutates an `emid`
counter via `checked_add`; this embedding takes the counter's entry value
and writes each emitted operation's `emid` with its explicit offset (the
mutation sequence of the source increments the counter exactly once
between consecutive emitted operations, including across the straddling
branches).  No caller reads the counter's final value (both `get_mtable`s
pass a fresh `&mut 1` per step), so the function returns only the
operation list.  Field values: `*raw_address as u64`, `*x as u32 as u64`
and `*value as u64` are identities on the stored unsigned bit patterns.
Only `Return`, `Drop`, `Load`, `Store`, `Const32` and `I32BinOp` have
live arms; everything else falls to the catch-all `_ => vec![]`. -/
def memory_event_of_step (event : ETEntry) (emid : Nat) : List MemoryTableEntry :=
  let eid := event.eid
  let sp_before_execution := 0
  match event.step_info with
  | .Return _ _ => []
  | .Drop => []
  | .Load _vtype load_size _offset raw_address effective_address value bv1 bv2 =>
      let load_address_from_stack : MemoryTableEntry :=
        { eid, emid, addr := sp_before_execution + 1, ltype := .Stack, atype := .Read,
          is_mutable := true, value := raw_address }
      let load_value1 : MemoryTableEntry :=
        { eid, emid := emid + 1, addr := effective_address / 8, ltype := .Heap,
          atype := .Read, is_mutable := true, value := bv1 }
      if effective_address % 8 + load_size.byteSize > 8 then
        [load_address_from_stack, load_value1,
         { eid, emid := emid + 2, addr := effective_address / 8 + 1, ltype := .Heap,
           atype := .Read, is_mutable := true, value := bv2 },
         { eid, emid := emid + 3, addr := sp_before_execution + 1, ltype := .Stack,
           atype := .Write, is_mutable := true, value := value }]
      else
        [load_address_from_stack, load_value1,
         { eid, emid := emid + 2, addr := sp_before_execution + 1, ltype := .Stack,
           atype := .Write, is_mutable := true, value := value }]
  | .Store _vtype store_size _offset raw_address effective_address pb1 ub1 pb2 ub2 value =>
      let load_value_from_stack : MemoryTableEntry :=
        { eid, emid, addr := sp_before_execution + 1, ltype := .Stack, atype := .Read,
          is_mutable := true, value := value }
      let load_address_from_stack : MemoryTableEntry :=
        { eid, emid := emid + 1, addr := sp_before_execution + 2, ltype := .Stack,
          atype := .Read, is_mutable := true, value := raw_address }
      let load_value1 : MemoryTableEntry :=
        { eid, emid := emid + 2, addr := effective_address / 8, ltype := .Heap,
          atype := .Read, is_mutable := true, value := pb1 }
      let write_value1 : MemoryTableEntry :=
        { eid, emid := emid + 3, addr := effective_address / 8, ltype := .Heap,
          atype := .Write, is_mutable := true, value := ub1 }
      if effective_address % 8 + store_size.byteSize > 8 then
        [load_value_from_stack, load_address_from_stack, load_value1, write_value1,
         { eid, emid := emid + 4, addr := effective_address / 8 + 1, ltype := .Heap,
           atype := .Read, is_mutable := true, value := pb2 },
         { eid, emid := emid + 5, addr := effective_address / 8 + 1, ltype := .Heap,
           atype := .Write, is_mutable := true, value := ub2 }]
      else
        [load_value_from_stack, load_address_from_stack, load_value1, write_value1]
  | .Const32 value addr =>
      [{ eid, emid, addr, ltype := .Stack, atype := .Write,
         is_mutable := false, value := value }]
  | .I32BinOp _cls left right value left_addr right_addr =>
      [{ eid, emid, addr := right_addr, ltype := .Stack, atype := .Read,
         is_mutable := true, value := right },
       { eid, emid := emid + 1, addr := left_addr, ltype := .Stack, atype := .Read,
         is_mutable := true, value := left },
       { eid, emid := emid + 2, addr := left_addr, ltype := .Stack, atype := .Write,
         is_mutable := true, value := value }]
  | _ => []

/-- mod.rs `Tracer::get_mtable`: maps `memory_event_of_step` over the
entries with a fresh `&mut 1` counter per entry, concatenates, and wraps
with `MTable::new` (which discards the `imtable`).  (etable.rs
`ETable::get_mtable` is the same computation but calls a one-argument
`MTable::new` that does not exist in mtable.rs as given.) -/
def get_mtable (etable : ETable) (imtable : IMTable) : MTable :=
  MTable.new ((etable.map (fun eentry => memory_event_of_step eentry 1)).flatten) imtable

/-! ## Per-step `emid` discipline (C2) -/

theorem memEvent_emids (e : ETEntry) (c : Nat) :
    (memory_event_of_step e c).map (·.emid) =
      List.range' c (memory_event_of_step e c).length := by
  cases hsi : e.step_info <;>
    simp only [memory_event_of_step, hsi] <;>
    try rfl
  case Load =>
    split_ifs <;> simp [List.range']
  case Store =>
    split_ifs <;> simp [List.range']

/-- C2 (amended): the `emid` counter is *not* threaded across steps —
`get_mtable` passes a fresh `&mut 1` to `memory_event_of_step` for every
entry, so each step's operations carry the consecutive `emid`s
`1, 2, …, kᵢ` and the counter restarts at 1 at every step boundary.
Within one step the `emid`s are consecutive from the counter's entry
value (first conjunct); over the whole table the `emid` column is the
concatenation of the per-step runs each starting at 1 (second conjunct).
Operations of a later step therefore do not have larger `emid`s than
operations of earlier steps (see `get_mtable_emid_cex`); ordering is by
the pair `(eid, emid)`, not by `emid` alone. -/
theorem get_mtable_emid_reset :
    (∀ (e : ETEntry) (c : Nat),
      (memory_event_of_step e c).map (·.emid) =
        List.range' c (memory_event_of_step e c).length) ∧
    (∀ (etable : ETable) (imtable : IMTable),
      (get_mtable etable imtable).map (·.emid) =
        (etable.map (fun e => List.range' 1 (memory_event_of_step e 1).length)).flatten) := by
  refine ⟨memEvent_emids, ?_⟩
  intro etable imtable
  show ((etable.map (fun e => memory_event_of_step e 1)).flatten).map (·.emid) = _
  rw [List.map_flatten, List.map_map]
  exact congrArg List.flatten (List.map_congr_left (fun e _ => memEvent_emids e 1))

/-- Two consecutive `I32BinOp` steps for the `emid` counterexample. -/
def mtableCex : ETable :=
  [⟨1, 0, .I32BinOp .Add 1 2 3 5 6, 0⟩, ⟨2, 0, .I32BinOp .Add 3 4 7 5 6, 0⟩]

/-- C2 counterexample: in the memory table of two consecutive
`I32BinOp` steps the `emid` column is `1, 2, 3, 1, 2, 3` — the counter
restarts at each step.  The third operation of step 1 (`emid = 3`) and
the first operation of step 2 (`emid = 1`) violate "every operation of a
later step has a larger emid than every operation of an earlier step". -/
theorem get_mtable_emid_cex :
    (get_mtable mtableCex []).map (·.emid) = [1, 2, 3, 1, 2, 3] ∧
    (⟨1, 3, 5, .Stack, .Write, true, 3⟩ : MemoryTableEntry) ∈ get_mtable mtableCex [] ∧
    (⟨2, 1, 6, .Stack, .Read, true, 4⟩ : MemoryTableEntry) ∈ get_mtable mtableCex [] ∧
    (1 : Nat) < 2 ∧
    ¬ ((3 : Nat) < 1) := by
  decide

/-! ## Missing translation arms return empty (C3) -/

/-- C3: the catch-all arm of `memory_event_of_step` silently returns an
*empty* operation list instead of failing.  `SetGlobal` — a data-moving
variant the spec defines a translation for (read top-of-stack, write
global) and not a control-flow-only variant — falls through to
`_ => vec![]`: the code returns no operations and raises no error,
contradicting the spec's requirement of a fatal failure. -/
theorem memory_event_setglobal_empty :
    memory_event_of_step ⟨1, 0, .SetGlobal 0 0, 0⟩ 1 = [] := rfl

/-! ## Load/Store heap-word access shape (C5) -/

/-- C5: a `Load` step emits exactly two heap `Read` entries — at word
addresses `effective_address / 8` and `effective_address / 8 + 1` — when
`effective_address % 8 + load_size.byte_size() > 8`, and exactly one (at
`effective_address / 8`) otherwise; a `Store` step emits exactly two
heap `Read`/`Write` pairs at those word addresses when straddling, and
exactly one pair otherwise. -/
theorem load_store_straddle :
    (∀ (e : ETEntry) (c : Nat) vt ls offset raw ea value bv1 bv2,
      e.step_info = .Load vt ls offset raw ea value bv1 bv2 →
      ((memory_event_of_step e c).filter
          (fun m => decide (m.ltype = LocationType.Heap))).map (fun m => (m.atype, m.addr)) =
        if ea % 8 + ls.byteSize > 8 then
          [(AccessType.Read, ea / 8), (AccessType.Read, ea / 8 + 1)]
        else
          [(AccessType.Read, ea / 8)]) ∧
    (∀ (e : ETEntry) (c : Nat) vt ss offset raw ea pb1 ub1 pb2 ub2 value,
      e.step_info = .Store vt ss offset raw ea pb1 ub1 pb2 ub2 value →
      ((memory_event_of_step e c).filter
          (fun m => decide (m.ltype = LocationType.Heap))).map (fun m => (m.atype, m.addr)) =
        if ea % 8 + ss.byteSize > 8 then
          [(AccessType.Read, ea / 8), (AccessType.Write, ea / 8),
           (AccessType.Read, ea / 8 + 1), (AccessType.Write, ea / 8 + 1)]
        else
          [(AccessType.Read, ea / 8), (AccessType.Write, ea / 8)]) := by
  constructor
  · intro e c vt ls offset raw ea value bv1 bv2 h
    simp only [memory_event_of_step, h]
    split_ifs <;> simp
  · intro e c vt ss offset raw ea pb1 ub1 pb2 ub2 value h
    simp only [memory_event_of_step, h]
    split_ifs <;> simp

/-- Witness for `load_store_straddle`: a straddling 8-byte load at
effective address 12 (`12 % 8 + 8 > 8`) reads heap words 1 and 2. -/
theorem load_store_straddle_witness :
    ((memory_event_of_step ⟨1, 0, .Load .I64 .I64 0 12 12 5 6 7, 0⟩ 1).filter
        (fun m => decide (m.ltype = LocationType.Heap))).map (fun m => (m.atype, m.addr)) =
      [(AccessType.Read, 1), (AccessType.Read, 2)] := by
  have h := load_store_straddle.1 ⟨1, 0, .Load .I64 .I64 0 12 12 5 6 7, 0⟩ 1
    .I64 .I64 0 12 12 5 6 7 rfl
  simpa using h

/-! ## `I32BinOp` and `Drop` operation shapes (C6) -/

/-- C6: an `I32BinOp` step emits exactly 3 stack operations in the fixed
order read-right, read-left, write-result (the write going to the left
operand's slot), with consecutive `emid`s; a `Drop` step emits no
operations. -/
theorem i32binop_drop_ops :
    (∀ (e : ETEntry) (c : Nat) cls left right value la ra,
      e.step_info = .I32BinOp cls left right value la ra →
      memory_event_of_step e c =
        [⟨e.eid, c, ra, .Stack, .Read, true, right⟩,
         ⟨e.eid, c + 1, la, .Stack, .Read, true, left⟩,
         ⟨e.eid, c + 2, la, .Stack, .Write, true, value⟩]) ∧
    (∀ (e : ETEntry) (c : Nat), e.step_info = .Drop → memory_event_of_step e c = []) := by
  constructor
  · intro e c cls left right value la ra h
    simp [memory_event_of_step, h]
  · intro e c h
    simp [memory_event_of_step, h]

/-- Witness for `i32binop_drop_ops` at a concrete `I32BinOp` entry and a
concrete `Drop` entry. -/
theorem i32binop_drop_ops_witness :
    memory_event_of_step ⟨4, 0, .I32BinOp .Add 100 200 300 9 10, 0⟩ 1 =
      [⟨4, 1, 10, .Stack, .Read, true, 200⟩,
       ⟨4, 2, 9, .Stack, .Read, true, 100⟩,
       ⟨4, 3, 9, .Stack, .Write, true, 300⟩] ∧
    memory_event_of_step ⟨5, 0, .Drop, 0⟩ 1 = [] :=
  ⟨i32binop_drop_ops.1 ⟨4, 0, .I32BinOp .Add 100 200 300 9 10, 0⟩ 1 .Add 100 200 300 9 10 rfl,
   i32binop_drop_ops.2 ⟨5, 0, .Drop, 0⟩ 1 rfl⟩

/-! ## No `Init` entries in the derived memory table (C10) -/

theorem memEvent_atypes (e : ETEntry) (c : Nat) :
    ∀ m ∈ memory_event_of_step e c, m.atype = .Read ∨ m.atype = .Write := by
  cases hsi : e.step_info <;>
    simp only [memory_event_of_step, hsi] <;>
    try (intro m hm; exact absurd hm (List.not_mem_nil m))
  case Load =>
    intro m hm
    split_ifs at hm <;> fin_cases hm <;> simp
  case Store =>
    intro m hm
    split_ifs at hm <;> fin_cases hm <;> simp
  case Const32 =>
    intro m hm
    fin_cases hm <;> simp
  case I32BinOp =>
    intro m hm
    fin_cases hm <;> simp

/-- C10: every entry of the memory table built by `get_mtable` has
access type `Read` or `Write`, never `Init`: the builder path emits no
initialization entries and never consults the `IMTable` (`MTable::new`
discards its `imtable` argument, and `push_accessed_memory_initialization`
— the only producer of `Init` entries, whose `IMTable::try_find` returns
`Some((0, 0, 0))` unconditionally — is never called on this path). -/
theorem get_mtable_no_init (etable : ETable) (imtable : IMTable) (m : MemoryTableEntry)
    (hm : m ∈ get_mtable etable imtable) :
    m.atype = .Read ∨ m.atype = .Write := by
  unfold get_mtable MTable.new at hm
  rw [List.mem_flatten] at hm
  obtain ⟨l, hl, hml⟩ := hm
  rw [List.mem_map] at hl
  obtain ⟨e, _, rfl⟩ := hl
  exact memEvent_atypes e 1 m hml

/-- Witness for `get_mtable_no_init` at a one-`Const32` table. -/
theorem get_mtable_no_init_witness :
    (⟨1, 1, 4, .Stack, .Write, false, 7⟩ : MemoryTableEntry).atype = .Read ∨
    (⟨1, 1, 4, .Stack, .Write, false, 7⟩ : MemoryTableEntry).atype = .Write :=
  get_mtable_no_init [⟨1, 0, .Const32 7 4, 0⟩] []
    ⟨1, 1, 4, .Stack, .Write, false, 7⟩ (by decide)

/-! ## Initial-memory snapshot (C8, mod.rs `Tracer::push_init_memory`) -/

/-- Modelled from the spec: the interpreter `Memory` consumed by
`push_init_memory` (the `Memory`/`AsContext` types live outside src/).
`initial_pages` is `memref.ty(..).initial_pages()`, `maximum_pages` is
`memref.ty(..).maximum_pages()`, and `readByte` gives the bytes that
`memref.read` copies out (the spec: "value from a little-endian 64-bit
load" of the committed pages). -/
structure Memory where
  initial_pages : Nat
  maximum_pages : Option Nat
  readByte : Nat → Nat

/-- `u64::from_le_bytes(buf)` for the 8 bytes at `addr`. -/
def leWord (readByte : Nat → Nat) (addr : Nat) : Nat :=
  readByte addr + 256 * (readByte (addr + 1) + 256 * (readByte (addr + 2) + 256 *
    (readByte (addr + 3) + 256 * (readByte (addr + 4) + 256 * (readByte (addr + 5) + 256 *
    (readByte (addr + 6) + 256 * readByte (addr + 7)))))))

/-- `u32::MAX`, the sentinel end offset when no maximum page bound is
declared. -/
def u32MAX : Nat := 4294967295

/-- mod.rs `Tracer::push_init_memory`: one `IMTable::push` per 8-byte
word of the initially committed pages (offsets `i`,`i`, value the
little-endian load at byte address `i * 8`), then one sentinel push at
offset `pages * 8192` with end offset `max_pages * 8192 - 1` (or
`u32::MAX` when unbounded) and value 0. -/
def push_init_memory (imtable : IMTable) (memref : Memory) : IMTable :=
  let pages := memref.initial_pages
  let t := (List.range (pages * 8192)).foldl
    (fun t i => t.push false true i i VarType.I64 (leWord memref.readByte (i * 8))) imtable
  t.push false true (pages * 8192)
    ((memref.maximum_pages.map (fun limit => limit * 8192 - 1)).getD u32MAX)
    VarType.I64 0

theorem foldl_impush (v : Nat → Nat) :
    ∀ (l : List Nat) (t : IMTable),
      l.foldl (fun t i => IMTable.push t false true i i VarType.I64 (v i)) t
        = t ++ l.map (fun i => ⟨.Heap, true, i, i, .I64, v i⟩) := by
  intro l
  induction l with
  | nil => intro t; simp
  | cons x l ih =>
    intro t
    simp only [List.foldl_cons, List.map_cons]
    rw [ih]
    simp [IMTable.push]

/-- C8: for a memory with `k` initially committed pages,
`push_init_memory` appends exactly `8192 * k` heap word entries — entry
`i` spanning `[i, i]` with value the little-endian 64-bit load at byte
address `i * 8` — followed by exactly 1 sentinel entry starting at
offset `8192 * k` with value 0, whose end offset is
`max_pages * 8192 - 1` when a maximum page bound is declared and
`u32::MAX` otherwise. -/
theorem push_init_memory_spec (imtable : IMTable) (memref : Memory) :
    push_init_memory imtable memref =
      imtable ++
      (List.range (8192 * memref.initial_pages)).map
        (fun i => ⟨.Heap, true, i, i, .I64, leWord memref.readByte (i * 8)⟩) ++
      [⟨.Heap, true, 8192 * memref.initial_pages,
        (memref.maximum_pages.map (fun m => m * 8192 - 1)).getD u32MAX, .I64, 0⟩] ∧
    (push_init_memory imtable memref).length =
      imtable.length + 8192 * memref.initial_pages + 1 := by
  have heq : push_init_memory imtable memref =
      imtable ++
      (List.range (8192 * memref.initial_pages)).map
        (fun i => ⟨.Heap, true, i, i, .I64, leWord memref.readByte (i * 8)⟩) ++
      [⟨.Heap, true, 8192 * memref.initial_pages,
        (memref.maximum_pages.map (fun m => m * 8192 - 1)).getD u32MAX, .I64, 0⟩] := by
    simp only [push_init_memory]
    rw [foldl_impush]
    rw [Nat.mul_comm memref.initial_pages 8192]
    simp [IMTable.push, List.append_assoc]
  refine ⟨heq, ?_⟩
  rw [heq]
  simp
  omega

end WasmiTracer
